import Mathlib

/-!
Verification development for the environment-manager repository
(backend in Go).  The definitions below are a shallow embedding of the
desired-state reconciliation subsystem (`internal/state/manager.go`),
the backup scheduler (`internal/backup`, `Scheduler.BackupVolume`,
`Scheduler.cleanupOldBackups`, `Scheduler.ListBackups`), and the
configuration loader (`internal/config/loader.go`).

Modelling conventions:
* Machine integers and timestamps become `Int`; timestamps are counted
  in days (the retention cutoff in the source is computed with
  `time.Now().AddDate(0, 0, -retentionDays)`, i.e. whole days).
* The Docker runtime is an external collaborator; its state is passed
  explicitly as a list of containers with a fresh-id counter, and the
  fallibility of every runtime call is captured by explicit failure
  oracles in an environment record.  A fixed oracle corresponds to the
  "no intervening changes" hypotheses of the spec.
* Fallible Go functions returning `error` become `Except String`
  values; functions that merely log failures keep their `Unit`-like
  shape with the state threaded through.
-/

namespace EnvManager

/-! ## Data model (`internal/models/state.go`) -/

/-- `models.ContainerState`: desired state of a single container, the
`(desired_state, last_known_state, last_state_change)` triple. -/
structure ContainerState where
  desiredState : String
  lastKnownState : String
  lastStateChange : Int
deriving Repr, DecidableEq

/-- `models.ComposeState`: desired state of a compose project. -/
structure ComposeState where
  desiredState : String
  lastKnownState : String
  lastStateChange : Int
deriving Repr, DecidableEq

/-- `models.DesiredState`: the single versioned desired-state document.
The Go `map[string]models.ContainerState` is modelled as an association
list keyed by entity id; the reconciliation loop iterates it in list
order (Go map iteration order is unspecified, so theorems quantify over
the order via the list). -/
structure DesiredState where
  version : Int
  containers : List (String × ContainerState)
  composeProjects : List (String × ComposeState)
deriving Repr, DecidableEq

/-- `models.SyncResult` (`internal/models/state.go`). -/
structure SyncResult where
  success : Bool
  pulledChanges : Bool
  containersAdded : List String
  containersUpdated : List String
  containersRemoved : List String
  errors : List String
deriving Repr, DecidableEq

/-! ## Container runtime collaborator

The reconciler (`Manager.RestoreOnStartup`) talks to Docker through
`docker.Client`: `ListContainers`, `CreateContainer`, `StartContainer`,
`StopContainer`, `GetContainerStatus`.  A runtime container has a
runtime-assigned id, a (single, canonical) name — the Go code strips
the leading `/` of `c.Names` entries — and a state string
(`running`, `exited`, `created`, ...). -/

/-- One container visible to `docker.Client.ListContainers`. -/
structure RtContainer where
  rid : Nat
  name : String
  state : String
deriving Repr, DecidableEq

/-- The runtime's state: its containers plus a counter supplying fresh
runtime ids for `CreateContainer`. -/
structure Runtime where
  containers : List RtContainer
  nextId : Nat
deriving Repr, DecidableEq

/-- Failure oracles for the Docker collaborator calls made by the
reconciler.  `createFails` is keyed by the container name passed to
`CreateContainer`; the others are keyed by the runtime id the call
receives.  A fixed oracle models a runtime whose failure behaviour does
not change between passes. -/
structure DockerEnv where
  createFails : String → Bool
  startFails : Nat → Bool
  stopFails : Nat → Bool
  statusFails : Nat → Bool

/-- Environment of one `Manager.RestoreOnStartup` run: the Docker
failure oracles, the config loader (`LoadContainerConfig` gives the
container name used by the reconciler; `none` models a load error —
the orphan case), the result of `LoadDesiredState` (`none` models a
fatal load error), and whether `ListContainers` fails. -/
structure ManagerEnv where
  docker : DockerEnv
  configName : String → Option String
  desired : Option DesiredState
  listFails : Bool

/-- The name→id index `existingContainers` that `RestoreOnStartup`
builds before its loop: iterate the listed containers in order, later
entries overwriting earlier ones (Go map assignment). -/
def buildIndex (cs : List RtContainer) : String → Option Nat :=
  cs.foldl (fun m c => fun n => if n = c.name then some c.rid else m n) (fun _ => none)

/-- `docker.Client.GetContainerStatus` restricted to the `.State` field
the reconciler consumes, with its failure oracle. -/
def getContainerStatus (env : ManagerEnv) (rt : Runtime) (i : Nat) : Option String :=
  if env.docker.statusFails i then none
  else (rt.containers.find? (fun c => c.rid = i)).map (fun c => c.state)

/-- State transition of the container with runtime id `i` to state `s`
(identity on every other container). -/
def updState (i : Nat) (s : String) (c : RtContainer) : RtContainer :=
  if c.rid = i then { c with state := s } else c

/-- Shared shape of a start/stop call: when the call fails (`b`), the
runtime is unchanged (the reconciler only logs the error); otherwise
the targeted container transitions to state `s`. -/
def applyUpd (b : Bool) (rt : Runtime) (i : Nat) (s : String) : Runtime :=
  if b then rt else { rt with containers := rt.containers.map (updState i s) }

/-- Effect of `docker.Client.StartContainer i` on the runtime: the
container with runtime id `i` transitions to `running`. -/
def applyStart (env : ManagerEnv) (rt : Runtime) (i : Nat) : Runtime :=
  applyUpd (env.docker.startFails i) rt i "running"

/-- Effect of `docker.Client.StopContainer i`: the container with
runtime id `i` transitions to `exited`. -/
def applyStop (env : ManagerEnv) (rt : Runtime) (i : Nat) : Runtime :=
  applyUpd (env.docker.stopFails i) rt i "exited"

/-- Effect of a successful `docker.Client.CreateContainer` with config
name `n`: a fresh container in Docker's `created` state. -/
def applyCreate (rt : Runtime) (n : String) : Runtime :=
  { containers := rt.containers ++ [⟨rt.nextId, n, "created"⟩], nextId := rt.nextId + 1 }

/-- Runtime calls the reconciler issues (observable command trace). -/
inductive Cmd where
  | create (name : String)
  | start (i : Nat)
  | stop (i : Nat)
deriving Repr, DecidableEq

/-- One iteration of the loop in `Manager.RestoreOnStartup` for a
desired-state entry `(id, state)`:
load the config (absent ⇒ warn and continue); look the config's name up
in the prebuilt index; absent from the runtime ⇒ create+start when the
desired state is `running`; present ⇒ fetch live status and start/stop
per the desired/live comparison, logging (ignoring) call failures. -/
def stepEntry (env : ManagerEnv) (idx : String → Option Nat) (rt : Runtime)
    (e : String × ContainerState) : Runtime × List Cmd :=
  match env.configName e.1 with
  | none => (rt, [])
  | some n =>
    match idx n with
    | none =>
      if e.2.desiredState = "running" then
        if env.docker.createFails n then (rt, [Cmd.create n])
        else
          let newId := rt.nextId
          (applyStart env (applyCreate rt n) newId, [Cmd.create n, Cmd.start newId])
      else (rt, [])
    | some exId =>
      match getContainerStatus env rt exId with
      | none => (rt, [])
      | some live =>
        if e.2.desiredState = "running" ∧ live ≠ "running" then
          (applyStart env rt exId, [Cmd.start exId])
        else if e.2.desiredState = "stopped" ∧ live = "running" then
          (applyStop env rt exId, [Cmd.stop exId])
        else (rt, [])

/-- The whole reconciliation loop of `Manager.RestoreOnStartup`: build
the index from the listed containers once, then fold the loop body over
the desired-state entries, accumulating the command trace. -/
def reconcilePass (env : ManagerEnv) (ds : DesiredState) (rt : Runtime) :
    Runtime × List Cmd :=
  let idx := buildIndex rt.containers
  ds.containers.foldl
    (fun acc e =>
      let r := stepEntry env idx acc.1 e
      (r.1, acc.2 ++ r.2))
    (rt, [])

/-- `Manager.RestoreOnStartup`: a failed `LoadDesiredState` or
`ListContainers` aborts the pass with an error; otherwise the loop runs
to completion and the function returns `nil`. -/
def restoreOnStartup (env : ManagerEnv) (rt : Runtime) :
    Except String (Runtime × List Cmd) :=
  match env.desired with
  | none => .error "failed to load desired state"
  | some ds =>
    if env.listFails then .error "failed to list containers"
    else .ok (reconcilePass env ds rt)

/-- `Manager.SyncFromGit`: start from `SyncResult{Success: true}`,
run `RestoreOnStartup`, append its error (if any) to the result's error
list, and return the result — never an exception. -/
def syncFromGit (env : ManagerEnv) (rt : Runtime) : SyncResult × Runtime :=
  match restoreOnStartup env rt with
  | .error e => ({ success := true, pulledChanges := false, containersAdded := [],
                   containersUpdated := [], containersRemoved := [], errors := [e] }, rt)
  | .ok (rt', _) => ({ success := true, pulledChanges := false, containersAdded := [],
                       containersUpdated := [], containersRemoved := [], errors := [] }, rt')

/-! ## Concrete instances used by witnesses and counterexamples -/

/-- A Docker collaborator on which every call succeeds. -/
def dockerNoFail : DockerEnv :=
  { createFails := fun _ => false, startFails := fun _ => false,
    stopFails := fun _ => false, statusFails := fun _ => false }

/-- Desired-state entry with state `s` (timestamps irrelevant here). -/
def entrySt (s : String) : ContainerState :=
  { desiredState := s, lastKnownState := s, lastStateChange := 0 }

/-- An empty runtime. -/
def rtEmpty : Runtime := { containers := [], nextId := 0 }

/-! ## Well-formedness and evolution of the runtime

Docker assigns fresh, distinct ids to containers; `RuntimeWF` captures
exactly that (ids pairwise distinct and below the fresh-id counter).
`Evolves rt₀ rt` says `rt` was obtained from `rt₀` by state transitions
and creations only: the `(id, name)` skeleton of `rt₀` is a prefix of
that of `rt`, and every added container has an id that is fresh with
respect to `rt₀`. -/

/-- Runtime ids of a container list. -/
def ridsOf (cs : List RtContainer) : List Nat := cs.map (fun c => c.rid)

/-- The `(id, name)` skeleton of a container list. -/
def pairsOf (cs : List RtContainer) : List (Nat × String) := cs.map (fun c => (c.rid, c.name))

/-- Well-formed runtime: distinct ids, all below the fresh-id counter. -/
def RuntimeWF (rt : Runtime) : Prop :=
  (ridsOf rt.containers).Nodup ∧ ∀ c ∈ rt.containers, c.rid < rt.nextId

/-- The containers bearing name `n`, in listing order. -/
def nameFilter (n : String) (cs : List RtContainer) : List RtContainer :=
  cs.filter (fun c => c.name = n)

/-- `rt` reachable from `rt₀` by reconciler actions: the id/name
skeleton only grows, with fresh ids. -/
structure Evolves (rt₀ rt : Runtime) : Prop where
  shape : ∃ extra, pairsOf rt.containers = pairsOf rt₀.containers ++ extra
            ∧ ∀ p ∈ extra, rt₀.nextId ≤ p.1
  nextLe : rt₀.nextId ≤ rt.nextId

theorem Evolves.refl (rt : Runtime) : Evolves rt rt :=
  ⟨⟨[], by simp, by simp⟩, le_refl _⟩

theorem Evolves.trans {rt₀ rt₁ rt₂ : Runtime} (h₁ : Evolves rt₀ rt₁)
    (h₂ : Evolves rt₁ rt₂) : Evolves rt₀ rt₂ := by
  obtain ⟨⟨e₁, hs₁, hb₁⟩, hl₁⟩ := h₁
  obtain ⟨⟨e₂, hs₂, hb₂⟩, hl₂⟩ := h₂
  refine ⟨⟨e₁ ++ e₂, ?_, ?_⟩, le_trans hl₁ hl₂⟩
  · rw [hs₂, hs₁, List.append_assoc]
  · intro p hp
    rcases List.mem_append.1 hp with h | h
    · exact hb₁ p h
    · exact le_trans hl₁ (hb₂ p h)

/-! ### Basic lemmas on the index, status lookup and updates -/

theorem buildIndex_concat (cs : List RtContainer) (c : RtContainer) (n : String) :
    buildIndex (cs ++ [c]) n = if n = c.name then some c.rid else buildIndex cs n := by
  simp [buildIndex, List.foldl_append]

theorem nameFilter_concat (n : String) (cs : List RtContainer) (c : RtContainer) :
    nameFilter n (cs ++ [c])
      = nameFilter n cs ++ (if c.name = n then [c] else []) := by
  by_cases h : c.name = n <;> simp [nameFilter, List.filter_append, List.filter, h]

theorem buildIndex_eq_getLast (cs : List RtContainer) (n : String) :
    buildIndex cs n = (nameFilter n cs).getLast?.map (fun c => c.rid) := by
  induction cs using List.reverseRecOn with
  | nil => rfl
  | append_singleton cs c ih =>
    rw [buildIndex_concat, nameFilter_concat]
    by_cases h : c.name = n
    · simp [h]
    · have h' : ¬(n = c.name) := fun hn => h hn.symm
      simp [h, h', ih]

theorem mem_nameFilter {n : String} {cs : List RtContainer} {c : RtContainer} :
    c ∈ nameFilter n cs ↔ c ∈ cs ∧ c.name = n := by
  simp [nameFilter]

theorem find?_rid {cs : List RtContainer} (hnd : (ridsOf cs).Nodup)
    {c : RtContainer} (hc : c ∈ cs) {i : Nat} (hi : c.rid = i) :
    cs.find? (fun x => x.rid = i) = some c := by
  induction cs with
  | nil => cases hc
  | cons a l ih =>
    have hnd' : ¬ a.rid ∈ ridsOf l ∧ (ridsOf l).Nodup := by
      have : (a.rid :: ridsOf l).Nodup := by simpa [ridsOf] using hnd
      exact ⟨(List.nodup_cons.1 this).1, (List.nodup_cons.1 this).2⟩
    rcases List.mem_cons.1 hc with rfl | hmem
    · simp [List.find?, hi]
    · have hne : ¬(a.rid = i) := by
        intro h
        exact hnd'.1 (by
          have : c.rid ∈ ridsOf l := List.mem_map.2 ⟨c, hmem, rfl⟩
          rwa [hi, ← h] at this)
      rw [List.find?_cons_of_neg _ (by simpa using hne)]
      exact ih hnd'.2 hmem

theorem updState_name (i : Nat) (s : String) (c : RtContainer) :
    (updState i s c).name = c.name := by
  unfold updState; split <;> rfl

theorem updState_rid (i : Nat) (s : String) (c : RtContainer) :
    (updState i s c).rid = c.rid := by
  unfold updState; split <;> rfl

theorem updState_of_ne {i : Nat} {s : String} {c : RtContainer} (h : ¬ c.rid = i) :
    updState i s c = c := by
  simp [updState, h]

theorem nameFilter_map_upd (n : String) (i : Nat) (s : String) (cs : List RtContainer) :
    nameFilter n (cs.map (updState i s)) = (nameFilter n cs).map (updState i s) := by
  unfold nameFilter
  rw [List.filter_map]
  congr 1
  apply List.filter_congr
  intro c _
  rw [Function.comp_apply, updState_name]

theorem map_upd_of_not_mem {cs : List RtContainer} {i : Nat} {s : String}
    (h : ∀ c ∈ cs, ¬ c.rid = i) : cs.map (updState i s) = cs := by
  induction cs with
  | nil => rfl
  | cons a l ih =>
    simp only [List.map_cons]
    rw [updState_of_ne (h a (List.mem_cons_self a l)),
        ih (fun c hc => h c (List.mem_cons_of_mem a hc))]

theorem ridsOf_map_upd (i : Nat) (s : String) (cs : List RtContainer) :
    ridsOf (cs.map (updState i s)) = ridsOf cs := by
  unfold ridsOf
  rw [List.map_map]
  apply List.map_congr_left
  intro c _
  rw [Function.comp_apply, updState_rid]

theorem pairsOf_map_upd (i : Nat) (s : String) (cs : List RtContainer) :
    pairsOf (cs.map (updState i s)) = pairsOf cs := by
  unfold pairsOf
  rw [List.map_map]
  apply List.map_congr_left
  intro c _
  rw [Function.comp_apply, updState_rid, updState_name]

/-! ### Lemmas on the runtime call effects -/

theorem applyUpd_nextId (b : Bool) (rt : Runtime) (i : Nat) (s : String) :
    (applyUpd b rt i s).nextId = rt.nextId := by
  unfold applyUpd; split <;> rfl

theorem applyUpd_pairs (b : Bool) (rt : Runtime) (i : Nat) (s : String) :
    pairsOf (applyUpd b rt i s).containers = pairsOf rt.containers := by
  unfold applyUpd; split
  · rfl
  · exact pairsOf_map_upd i s rt.containers

theorem applyUpd_rids (b : Bool) (rt : Runtime) (i : Nat) (s : String) :
    ridsOf (applyUpd b rt i s).containers = ridsOf rt.containers := by
  unfold applyUpd; split
  · rfl
  · exact ridsOf_map_upd i s rt.containers

theorem applyUpd_wf {rt : Runtime} (hwf : RuntimeWF rt) (b : Bool) (i : Nat) (s : String) :
    RuntimeWF (applyUpd b rt i s) := by
  unfold applyUpd; split
  · exact hwf
  · constructor
    · rw [show ({ rt with containers := rt.containers.map (updState i s) } : Runtime).containers
            = rt.containers.map (updState i s) from rfl, ridsOf_map_upd]
      exact hwf.1
    · intro c hc
      rcases List.mem_map.1 hc with ⟨c₀, hc₀, rfl⟩
      rw [updState_rid]
      exact hwf.2 c₀ hc₀

theorem applyUpd_evolves (b : Bool) (rt : Runtime) (i : Nat) (s : String) :
    Evolves rt (applyUpd b rt i s) :=
  ⟨⟨[], by rw [applyUpd_pairs, List.append_nil], by simp⟩,
   le_of_eq (applyUpd_nextId b rt i s).symm⟩

theorem applyUpd_nameFilter_frame {rt : Runtime} {i : Nat} {n : String}
    (h : ∀ c ∈ rt.containers, c.rid = i → ¬ c.name = n) (b : Bool) (s : String) :
    nameFilter n (applyUpd b rt i s).containers = nameFilter n rt.containers := by
  unfold applyUpd; split
  · rfl
  · show nameFilter n (rt.containers.map (updState i s)) = _
    rw [nameFilter_map_upd]
    apply map_upd_of_not_mem
    intro c hc
    rcases mem_nameFilter.1 hc with ⟨hmem, hname⟩
    exact fun hrid => h c hmem hrid hname

theorem applyCreate_pairs (rt : Runtime) (n : String) :
    pairsOf (applyCreate rt n).containers
      = pairsOf rt.containers ++ [(rt.nextId, n)] := by
  simp [applyCreate, pairsOf]

theorem applyCreate_nextId (rt : Runtime) (n : String) :
    (applyCreate rt n).nextId = rt.nextId + 1 := rfl

theorem applyCreate_wf {rt : Runtime} (hwf : RuntimeWF rt) (n : String) :
    RuntimeWF (applyCreate rt n) := by
  constructor
  · show (ridsOf (rt.containers ++ [⟨rt.nextId, n, "created"⟩])).Nodup
    rw [show ridsOf (rt.containers ++ [⟨rt.nextId, n, "created"⟩])
          = ridsOf rt.containers ++ [rt.nextId] by simp [ridsOf]]
    rw [List.nodup_append]
    refine ⟨hwf.1, List.nodup_singleton _, ?_⟩
    intro a ha hb
    rcases List.mem_map.1 ha with ⟨c, hc, rfl⟩
    exact absurd (List.mem_singleton.1 hb) (Nat.ne_of_lt (hwf.2 c hc))
  · intro c hc
    rcases List.mem_append.1 hc with h | h
    · exact Nat.lt_succ_of_lt (hwf.2 c h)
    · rcases List.mem_singleton.1 h with rfl
      exact Nat.lt_succ_self _

theorem applyCreate_evolves (rt : Runtime) (n : String) :
    Evolves rt (applyCreate rt n) :=
  ⟨⟨[(rt.nextId, n)], applyCreate_pairs rt n,
    by intro p hp; rcases List.mem_singleton.1 hp with rfl; exact le_refl _⟩,
   Nat.le_succ _⟩

theorem applyCreate_nameFilter (rt : Runtime) (n : String) :
    nameFilter n (applyCreate rt n).containers
      = nameFilter n rt.containers ++ [⟨rt.nextId, n, "created"⟩] := by
  show nameFilter n (rt.containers ++ [⟨rt.nextId, n, "created"⟩]) = _
  rw [nameFilter_concat]
  simp

theorem applyCreate_nameFilter_frame (rt : Runtime) {m n : String} (h : ¬ m = n) :
    nameFilter n (applyCreate rt m).containers = nameFilter n rt.containers := by
  show nameFilter n (rt.containers ++ [⟨rt.nextId, m, "created"⟩]) = _
  rw [nameFilter_concat]
  simp [h]

/-! ### Runtime-only view of the reconciliation loop -/

/-- The runtime component of folding the loop body over the entries
(the command trace dropped). -/
def runEntries (env : ManagerEnv) (idx : String → Option Nat) :
    List (String × ContainerState) → Runtime → Runtime
  | [], rt => rt
  | e :: es, rt => runEntries env idx es (stepEntry env idx rt e).1

theorem reconcilePass_fst_aux (env : ManagerEnv) (idx : String → Option Nat)
    (L : List (String × ContainerState)) :
    ∀ (rt : Runtime) (tr : List Cmd),
      (L.foldl (fun acc e =>
          let r := stepEntry env idx acc.1 e
          (r.1, acc.2 ++ r.2)) (rt, tr)).1
        = runEntries env idx L rt := by
  induction L with
  | nil => intro rt tr; rfl
  | cons e es ih =>
    intro rt tr
    simp only [List.foldl_cons, runEntries]
    exact ih _ _

/-- The final runtime of a pass is `runEntries` over the document. -/
theorem reconcilePass_fst (env : ManagerEnv) (ds : DesiredState) (rt : Runtime) :
    (reconcilePass env ds rt).1
      = runEntries env (buildIndex rt.containers) ds.containers rt :=
  reconcilePass_fst_aux env (buildIndex rt.containers) ds.containers rt []

/-! ### Soundness of the prebuilt index over an evolved runtime -/

/-- Every id the index hands out belongs to a container of the runtime
the index was built from, under that container's name. -/
def IdxSound (idx : String → Option Nat) (rt₀ : Runtime) : Prop :=
  ∀ m i, idx m = some i → ∃ c₀, c₀ ∈ rt₀.containers ∧ c₀.rid = i ∧ c₀.name = m

theorem buildIndex_sound (rt₀ : Runtime) : IdxSound (buildIndex rt₀.containers) rt₀ := by
  intro m i h
  rw [buildIndex_eq_getLast] at h
  rcases Option.map_eq_some'.1 h with ⟨c₀, hc₀, hrid⟩
  have hmem : c₀ ∈ nameFilter m rt₀.containers :=
    List.mem_of_mem_getLast? (by rw [hc₀]; rfl)
  rcases mem_nameFilter.1 hmem with ⟨hin, hname⟩
  exact ⟨c₀, hin, hrid, hname⟩

/-- In an evolved well-formed runtime, a container whose id already
existed in the base runtime still carries its original name. -/
theorem evolves_rid_name {rt₀ rt : Runtime} (hwf₀ : RuntimeWF rt₀)
    (hev : Evolves rt₀ rt) {c₀ : RtContainer} (hc₀ : c₀ ∈ rt₀.containers)
    {c : RtContainer} (hc : c ∈ rt.containers) (heq : c.rid = c₀.rid) :
    c.name = c₀.name := by
  obtain ⟨⟨extra, hsh, hb⟩, _⟩ := hev
  have hcpair : (c.rid, c.name) ∈ pairsOf rt.containers := List.mem_map.2 ⟨c, hc, rfl⟩
  rw [hsh] at hcpair
  rcases List.mem_append.1 hcpair with h | h
  · rcases List.mem_map.1 h with ⟨c₀', hc₀', hpair⟩
    have hrid : c₀'.rid = c₀.rid := by
      have := congrArg Prod.fst hpair
      simpa [heq] using this
    have hname : c₀'.name = c.name := by
      have := congrArg Prod.snd hpair
      simpa using this
    have : c₀' = c₀ :=
      List.inj_on_of_nodup_map (f := fun c => c.rid) (by simpa [ridsOf] using hwf₀.1)
        hc₀' hc₀ hrid
    rw [← hname, this]
  · have hle := hb _ h
    have hlt : c₀.rid < rt₀.nextId := hwf₀.2 c₀ hc₀
    simp only [heq] at hle
    exact absurd hle (not_le.2 hlt)

/-! ### Effect lemmas on a single loop iteration -/

theorem stepEntry_wf_evolves (env : ManagerEnv) (idx : String → Option Nat)
    {rt : Runtime} (hwf : RuntimeWF rt) (e : String × ContainerState) :
    RuntimeWF (stepEntry env idx rt e).1 ∧ Evolves rt (stepEntry env idx rt e).1 := by
  cases hc : env.configName e.1 with
  | none => simp only [stepEntry, hc]; exact ⟨hwf, Evolves.refl rt⟩
  | some n =>
    cases hx : idx n with
    | none =>
      by_cases hd : e.2.desiredState = "running"
      · by_cases hcf : env.docker.createFails n = true
        · simp only [stepEntry, hc, hx, if_pos hd, if_pos hcf]
          exact ⟨hwf, Evolves.refl rt⟩
        · simp only [stepEntry, hc, hx, if_pos hd, if_neg hcf]
          refine ⟨applyUpd_wf (applyCreate_wf hwf n) _ _ _, ?_⟩
          exact (applyCreate_evolves rt n).trans (applyUpd_evolves _ _ _ _)
      · simp only [stepEntry, hc, hx, if_neg hd]
        exact ⟨hwf, Evolves.refl rt⟩
    | some exId =>
      cases hs : getContainerStatus env rt exId with
      | none => simp only [stepEntry, hc, hx, hs]; exact ⟨hwf, Evolves.refl rt⟩
      | some live =>
        simp only [stepEntry, hc, hx, hs]
        split
        · exact ⟨applyUpd_wf hwf _ _ _, applyUpd_evolves _ _ _ _⟩
        · split
          · exact ⟨applyUpd_wf hwf _ _ _, applyUpd_evolves _ _ _ _⟩
          · exact ⟨hwf, Evolves.refl rt⟩

/-- Frame property of one loop iteration: an entry whose config name is
not `n` (or whose config is absent) leaves the containers named `n`
untouched. -/
theorem stepEntry_frame (env : ManagerEnv) {idx : String → Option Nat}
    {rt₀ rt : Runtime} {n : String}
    (hwf₀ : RuntimeWF rt₀) (hev : Evolves rt₀ rt) (hwf : RuntimeWF rt)
    (hsound : IdxSound idx rt₀)
    (e : String × ContainerState)
    (hname : ∀ m, env.configName e.1 = some m → ¬ m = n) :
    nameFilter n (stepEntry env idx rt e).1.containers = nameFilter n rt.containers := by
  cases hc : env.configName e.1 with
  | none => simp only [stepEntry, hc]
  | some m =>
    have hm : ¬ m = n := hname m hc
    cases hx : idx m with
    | none =>
      by_cases hd : e.2.desiredState = "running"
      · by_cases hcf : env.docker.createFails m = true
        · simp only [stepEntry, hc, hx, if_pos hd, if_pos hcf]
        · simp only [stepEntry, hc, hx, if_pos hd, if_neg hcf]
          rw [show applyStart env (applyCreate rt m) rt.nextId
                = applyUpd (env.docker.startFails rt.nextId) (applyCreate rt m) rt.nextId "running"
              from rfl]
          rw [applyUpd_nameFilter_frame, applyCreate_nameFilter_frame rt hm]
          intro c hcmem hcrid
          rcases List.mem_append.1 hcmem with h | h
          · exact absurd hcrid (Nat.ne_of_lt (hwf.2 c h))
          · rcases List.mem_singleton.1 h with rfl
            exact hm
      · simp only [stepEntry, hc, hx, if_neg hd]
    | some exId =>
      have htarget : ∀ c ∈ rt.containers, c.rid = exId → ¬ c.name = n := by
        rcases hsound m exId hx with ⟨c₀, hc₀, hrid, hname₀⟩
        intro c hcmem hcrid
        have : c.name = c₀.name :=
          evolves_rid_name hwf₀ hev hc₀ hcmem (by rw [hcrid, hrid])
        rw [this, hname₀]
        exact hm
      cases hs : getContainerStatus env rt exId with
      | none => simp only [stepEntry, hc, hx, hs]
      | some live =>
        simp only [stepEntry, hc, hx, hs]
        split
        · exact applyUpd_nameFilter_frame htarget _ _
        · split
          · exact applyUpd_nameFilter_frame htarget _ _
          · rfl

/-! ### Stability of a settled entry

After its pass-1 iteration an entry is settled: provided nothing else
touches the containers bearing its config name, re-running the same
iteration against any later well-formed runtime (with the index rebuilt
from that runtime) leaves the runtime unchanged. -/

theorem applyUpd_of_true {b : Bool} (h : b = true) (rt : Runtime) (i : Nat) (s : String) :
    applyUpd b rt i s = rt := by
  rw [applyUpd, if_pos h]

theorem applyUpd_of_false {b : Bool} (h : ¬ b = true) (rt : Runtime) (i : Nat) (s : String) :
    applyUpd b rt i s = { rt with containers := rt.containers.map (updState i s) } := by
  rw [applyUpd, if_neg h]

theorem stepEntry_stable (env : ManagerEnv) {rt₀ rt rt' : Runtime}
    (hwf : RuntimeWF rt) (hwf' : RuntimeWF rt')
    (e : String × ContainerState) {n : String}
    (hcfg : env.configName e.1 = some n)
    (hpre : nameFilter n rt.containers = nameFilter n rt₀.containers)
    (hpost : nameFilter n rt'.containers
      = nameFilter n (stepEntry env (buildIndex rt₀.containers) rt e).1.containers) :
    (stepEntry env (buildIndex rt'.containers) rt' e).1 = rt' := by
  cases hL : (nameFilter n rt₀.containers).getLast? with
  | none =>
    have hFnil : nameFilter n rt₀.containers = [] := List.getLast?_eq_none_iff.1 hL
    have hx₀ : buildIndex rt₀.containers n = none := by
      rw [buildIndex_eq_getLast, hL]; rfl
    by_cases hd : e.2.desiredState = "running"
    · by_cases hcf : env.docker.createFails n = true
      · -- create fails: pass 1 was a runtime no-op, pass 2 fails again
        have h1 : (stepEntry env (buildIndex rt₀.containers) rt e).1 = rt := by
          simp only [stepEntry, hcfg, hx₀, if_pos hd, if_pos hcf]
        have hF' : nameFilter n rt'.containers = [] := by
          rw [hpost, h1, hpre, hFnil]
        have hx' : buildIndex rt'.containers n = none := by
          rw [buildIndex_eq_getLast, hF']; rfl
        simp only [stepEntry, hcfg, hx', if_pos hd, if_pos hcf]
      · -- pass 1 created (and possibly started) the container
        have h1 : (stepEntry env (buildIndex rt₀.containers) rt e).1
            = applyUpd (env.docker.startFails rt.nextId) (applyCreate rt n) rt.nextId
                "running" := by
          simp only [stepEntry, hcfg, hx₀, if_pos hd, if_neg hcf]; rfl
        by_cases hsf : env.docker.startFails rt.nextId = true
        · -- start failed: the container is left in state `created`
          have hF' : nameFilter n rt'.containers = [⟨rt.nextId, n, "created"⟩] := by
            rw [hpost, h1, applyUpd_of_true hsf, applyCreate_nameFilter, hpre, hFnil,
              List.nil_append]
          have hx' : buildIndex rt'.containers n = some rt.nextId := by
            rw [buildIndex_eq_getLast, hF']; rfl
          have hCmem : (⟨rt.nextId, n, "created"⟩ : RtContainer) ∈ rt'.containers :=
            (mem_nameFilter.1 (by rw [hF']; exact List.mem_singleton_self _)).1
          by_cases hstf : env.docker.statusFails rt.nextId = true
          · have hstat' : getContainerStatus env rt' rt.nextId = none := by
              simp [getContainerStatus, hstf]
            simp only [stepEntry, hcfg, hx', hstat']
          · have hfind' : rt'.containers.find? (fun x => x.rid = rt.nextId)
                = some ⟨rt.nextId, n, "created"⟩ := find?_rid hwf'.1 hCmem rfl
            have hstat' : getContainerStatus env rt' rt.nextId = some "created" := by
              simp [getContainerStatus, hstf, hfind']
            have hcond : e.2.desiredState = "running" ∧ ("created" : String) ≠ "running" :=
              ⟨hd, by decide⟩
            simp only [stepEntry, hcfg, hx', hstat', if_pos hcond]
            exact applyUpd_of_true hsf rt' rt.nextId "running"
        · -- start succeeded: the container is `running`, pass 2 no-ops
          have hF' : nameFilter n rt'.containers = [⟨rt.nextId, n, "running"⟩] := by
            rw [hpost, h1, applyUpd_of_false hsf]
            show nameFilter n ((applyCreate rt n).containers.map (updState rt.nextId "running"))
              = _
            rw [nameFilter_map_upd, applyCreate_nameFilter, hpre, hFnil, List.nil_append]
            simp [updState]
          have hx' : buildIndex rt'.containers n = some rt.nextId := by
            rw [buildIndex_eq_getLast, hF']; rfl
          have hCmem : (⟨rt.nextId, n, "running"⟩ : RtContainer) ∈ rt'.containers :=
            (mem_nameFilter.1 (by rw [hF']; exact List.mem_singleton_self _)).1
          by_cases hstf : env.docker.statusFails rt.nextId = true
          · have hstat' : getContainerStatus env rt' rt.nextId = none := by
              simp [getContainerStatus, hstf]
            simp only [stepEntry, hcfg, hx', hstat']
          · have hfind' : rt'.containers.find? (fun x => x.rid = rt.nextId)
                = some ⟨rt.nextId, n, "running"⟩ := find?_rid hwf'.1 hCmem rfl
            have hstat' : getContainerStatus env rt' rt.nextId = some "running" := by
              simp [getContainerStatus, hstf, hfind']
            simp [stepEntry, hcfg, hx', hstat', hd]
    · -- desired state is not running: nothing was and nothing is done
      have h1 : (stepEntry env (buildIndex rt₀.containers) rt e).1 = rt := by
        simp only [stepEntry, hcfg, hx₀, if_neg hd]
      have hF' : nameFilter n rt'.containers = [] := by
        rw [hpost, h1, hpre, hFnil]
      have hx' : buildIndex rt'.containers n = none := by
        rw [buildIndex_eq_getLast, hF']; rfl
      simp only [stepEntry, hcfg, hx', if_neg hd]
  | some E =>
    have hx₀ : buildIndex rt₀.containers n = some E.rid := by
      rw [buildIndex_eq_getLast, hL]; rfl
    have hEfilter₀ : E ∈ nameFilter n rt₀.containers :=
      List.mem_of_mem_getLast? (by rw [hL]; rfl)
    have hEmem_rt : E ∈ rt.containers :=
      (mem_nameFilter.1 (by rw [hpre]; exact hEfilter₀)).1
    by_cases hstf : env.docker.statusFails E.rid = true
    · -- status fetch fails in both passes
      have hstat : getContainerStatus env rt E.rid = none := by
        simp [getContainerStatus, hstf]
      have h1 : (stepEntry env (buildIndex rt₀.containers) rt e).1 = rt := by
        simp only [stepEntry, hcfg, hx₀, hstat]
      have hF' : nameFilter n rt'.containers = nameFilter n rt₀.containers := by
        rw [hpost, h1, hpre]
      have hx' : buildIndex rt'.containers n = some E.rid := by
        rw [buildIndex_eq_getLast, hF', hL]; rfl
      have hstat' : getContainerStatus env rt' E.rid = none := by
        simp [getContainerStatus, hstf]
      simp only [stepEntry, hcfg, hx', hstat']
    · have hfind : rt.containers.find? (fun x => x.rid = E.rid) = some E :=
        find?_rid hwf.1 hEmem_rt rfl
      have hstat : getContainerStatus env rt E.rid = some E.state := by
        simp [getContainerStatus, hstf, hfind]
      by_cases hc1 : e.2.desiredState = "running" ∧ E.state ≠ "running"
      · -- start branch in pass 1
        have h1 : (stepEntry env (buildIndex rt₀.containers) rt e).1
            = applyUpd (env.docker.startFails E.rid) rt E.rid "running" := by
          simp only [stepEntry, hcfg, hx₀, hstat, if_pos hc1]; rfl
        by_cases hsf : env.docker.startFails E.rid = true
        · -- start failed: nothing changed; pass 2 tries and fails again
          have hF' : nameFilter n rt'.containers = nameFilter n rt₀.containers := by
            rw [hpost, h1, applyUpd_of_true hsf, hpre]
          have hx' : buildIndex rt'.containers n = some E.rid := by
            rw [buildIndex_eq_getLast, hF', hL]; rfl
          have hEmem' : E ∈ rt'.containers :=
            (mem_nameFilter.1 (by rw [hF']; exact hEfilter₀)).1
          have hfind' : rt'.containers.find? (fun x => x.rid = E.rid) = some E :=
            find?_rid hwf'.1 hEmem' rfl
          have hstat' : getContainerStatus env rt' E.rid = some E.state := by
            simp [getContainerStatus, hstf, hfind']
          simp only [stepEntry, hcfg, hx', hstat', if_pos hc1]
          exact applyUpd_of_true hsf rt' E.rid "running"
        · -- start succeeded: the container is now running
          have hF' : nameFilter n rt'.containers
              = (nameFilter n rt₀.containers).map (updState E.rid "running") := by
            rw [hpost, h1, applyUpd_of_false hsf]
            show nameFilter n (rt.containers.map (updState E.rid "running")) = _
            rw [nameFilter_map_upd, hpre]
          have hgl : (nameFilter n rt'.containers).getLast?
              = some (updState E.rid "running" E) := by
            rw [hF', List.getLast?_map, hL]; rfl
          have hE' : updState E.rid "running" E = { E with state := "running" } := by
            simp [updState]
          have hx' : buildIndex rt'.containers n = some E.rid := by
            rw [buildIndex_eq_getLast, hgl, hE']; rfl
          have hE'mem : ({ E with state := "running" } : RtContainer) ∈ rt'.containers := by
            refine ((mem_nameFilter (n := n)).1 (List.mem_of_mem_getLast? ?_)).1
            rw [hgl, hE']; rfl
          have hfind' : rt'.containers.find? (fun x => x.rid = E.rid)
              = some { E with state := "running" } := find?_rid hwf'.1 hE'mem rfl
          have hstat' : getContainerStatus env rt' E.rid = some "running" := by
            simp [getContainerStatus, hstf, hfind']
          simp [stepEntry, hcfg, hx', hstat', hc1.1]
      · by_cases hc2 : e.2.desiredState = "stopped" ∧ E.state = "running"
        · -- stop branch in pass 1
          have h1 : (stepEntry env (buildIndex rt₀.containers) rt e).1
              = applyUpd (env.docker.stopFails E.rid) rt E.rid "exited" := by
            simp only [stepEntry, hcfg, hx₀, hstat, if_neg hc1, if_pos hc2]; rfl
          by_cases hsf : env.docker.stopFails E.rid = true
          · -- stop failed: nothing changed; pass 2 tries and fails again
            have hF' : nameFilter n rt'.containers = nameFilter n rt₀.containers := by
              rw [hpost, h1, applyUpd_of_true hsf, hpre]
            have hx' : buildIndex rt'.containers n = some E.rid := by
              rw [buildIndex_eq_getLast, hF', hL]; rfl
            have hEmem' : E ∈ rt'.containers :=
              (mem_nameFilter.1 (by rw [hF']; exact hEfilter₀)).1
            have hfind' : rt'.containers.find? (fun x => x.rid = E.rid) = some E :=
              find?_rid hwf'.1 hEmem' rfl
            have hstat' : getContainerStatus env rt' E.rid = some E.state := by
              simp [getContainerStatus, hstf, hfind']
            simp only [stepEntry, hcfg, hx', hstat', if_neg hc1, if_pos hc2]
            exact applyUpd_of_true hsf rt' E.rid "exited"
          · -- stop succeeded: the container is now exited
            have hF' : nameFilter n rt'.containers
                = (nameFilter n rt₀.containers).map (updState E.rid "exited") := by
              rw [hpost, h1, applyUpd_of_false hsf]
              show nameFilter n (rt.containers.map (updState E.rid "exited")) = _
              rw [nameFilter_map_upd, hpre]
            have hgl : (nameFilter n rt'.containers).getLast?
                = some (updState E.rid "exited" E) := by
              rw [hF', List.getLast?_map, hL]; rfl
            have hE' : updState E.rid "exited" E = { E with state := "exited" } := by
              simp [updState]
            have hx' : buildIndex rt'.containers n = some E.rid := by
              rw [buildIndex_eq_getLast, hgl, hE']; rfl
            have hE'mem : ({ E with state := "exited" } : RtContainer) ∈ rt'.containers := by
              refine ((mem_nameFilter (n := n)).1 (List.mem_of_mem_getLast? ?_)).1
              rw [hgl, hE']; rfl
            have hfind' : rt'.containers.find? (fun x => x.rid = E.rid)
                = some { E with state := "exited" } := find?_rid hwf'.1 hE'mem rfl
            have hstat' : getContainerStatus env rt' E.rid = some "exited" := by
              simp [getContainerStatus, hstf, hfind']
            simp [stepEntry, hcfg, hx', hstat', hc2.1]
        · -- already converged in pass 1: no-op in both passes
          have h1 : (stepEntry env (buildIndex rt₀.containers) rt e).1 = rt := by
            simp only [stepEntry, hcfg, hx₀, hstat, if_neg hc1, if_neg hc2]
          have hF' : nameFilter n rt'.containers = nameFilter n rt₀.containers := by
            rw [hpost, h1, hpre]
          have hx' : buildIndex rt'.containers n = some E.rid := by
            rw [buildIndex_eq_getLast, hF', hL]; rfl
          have hEmem' : E ∈ rt'.containers :=
            (mem_nameFilter.1 (by rw [hF']; exact hEfilter₀)).1
          have hfind' : rt'.containers.find? (fun x => x.rid = E.rid) = some E :=
            find?_rid hwf'.1 hEmem' rfl
          have hstat' : getContainerStatus env rt' E.rid = some E.state := by
            simp [getContainerStatus, hstf, hfind']
          simp only [stepEntry, hcfg, hx', hstat', if_neg hc1, if_neg hc2]

/-! ### Whole-pass lemmas -/

theorem runEntries_wf_evolves (env : ManagerEnv) (idx : String → Option Nat) :
    ∀ (L : List (String × ContainerState)) {rt : Runtime}, RuntimeWF rt →
      RuntimeWF (runEntries env idx L rt) ∧ Evolves rt (runEntries env idx L rt) := by
  intro L
  induction L with
  | nil => intro rt hwf; exact ⟨hwf, Evolves.refl rt⟩
  | cons e es ih =>
    intro rt hwf
    obtain ⟨hwf1, hev1⟩ := stepEntry_wf_evolves env idx hwf e
    obtain ⟨hwf2, hev2⟩ := ih hwf1
    exact ⟨hwf2, hev1.trans hev2⟩

theorem runEntries_frame (env : ManagerEnv) {idx : String → Option Nat}
    {rt₀ : Runtime} {n : String}
    (hwf₀ : RuntimeWF rt₀) (hsound : IdxSound idx rt₀) :
    ∀ (L : List (String × ContainerState)) {rt : Runtime},
      RuntimeWF rt → Evolves rt₀ rt →
      (∀ e ∈ L, ∀ m, env.configName e.1 = some m → ¬ m = n) →
      nameFilter n (runEntries env idx L rt).containers = nameFilter n rt.containers := by
  intro L
  induction L with
  | nil => intro rt _ _ _; rfl
  | cons e es ih =>
    intro rt hwf hev hnames
    obtain ⟨hwf1, hev1⟩ := stepEntry_wf_evolves env idx hwf e
    have hstep := stepEntry_frame env hwf₀ hev hwf hsound e
      (hnames e (List.mem_cons_self e es))
    show nameFilter n (runEntries env idx es (stepEntry env idx rt e).1).containers = _
    rw [ih hwf1 (hev.trans hev1) (fun e' he' => hnames e' (List.mem_cons_of_mem e he')),
      hstep]

/-- The pass is idempotent on the runtime provided the entries resolve
to pairwise-distinct container names: re-running every iteration
against the result of a completed pass (with the index rebuilt) leaves
that result unchanged. -/
theorem runEntries_idempotent (env : ManagerEnv) {rt₀ : Runtime} (hwf₀ : RuntimeWF rt₀) :
    ∀ (L : List (String × ContainerState)) {rt : Runtime},
      RuntimeWF rt → Evolves rt₀ rt →
      (L.filterMap (fun e => env.configName e.1)).Nodup →
      (∀ e ∈ L, ∀ n, env.configName e.1 = some n →
          nameFilter n rt.containers = nameFilter n rt₀.containers) →
      ∀ {rt' : Runtime}, RuntimeWF rt' →
        (∀ e ∈ L, ∀ n, env.configName e.1 = some n →
            nameFilter n rt'.containers
              = nameFilter n (runEntries env (buildIndex rt₀.containers) L rt).containers) →
        runEntries env (buildIndex rt'.containers) L rt' = rt' := by
  intro L
  induction L with
  | nil => intro rt _ _ _ _ rt' _ _; rfl
  | cons e es ih =>
    intro rt hwf hev hnodup huntouched rt' hwf' hfilters
    obtain ⟨hwf1, hev1⟩ := stepEntry_wf_evolves env (buildIndex rt₀.containers) hwf e
    have hnodup_tail : (es.filterMap (fun e => env.configName e.1)).Nodup := by
      cases hc : env.configName e.1 with
      | none => rwa [List.filterMap_cons, hc] at hnodup
      | some m =>
        rw [List.filterMap_cons, hc] at hnodup
        exact (List.nodup_cons.1 hnodup).2
    have hhead_ne : ∀ m, env.configName e.1 = some m →
        ∀ e' ∈ es, ∀ m', env.configName e'.1 = some m' → ¬ m' = m := by
      intro m hm e' he' m' hm' heq
      rw [List.filterMap_cons, hm] at hnodup
      exact (List.nodup_cons.1 hnodup).1 (heq ▸ List.mem_filterMap.2 ⟨e', he', hm'⟩)
    -- the head's iteration is a no-op on rt'
    have hstep2 : (stepEntry env (buildIndex rt'.containers) rt' e).1 = rt' := by
      cases hc : env.configName e.1 with
      | none => simp only [stepEntry, hc]
      | some n =>
        refine stepEntry_stable env hwf hwf' e hc
          (huntouched e (List.mem_cons_self e es) n hc) ?_
        have htail_frame : nameFilter n (runEntries env (buildIndex rt₀.containers) es
            (stepEntry env (buildIndex rt₀.containers) rt e).1).containers
            = nameFilter n (stepEntry env (buildIndex rt₀.containers) rt e).1.containers :=
          runEntries_frame env hwf₀ (buildIndex_sound rt₀) es hwf1 (hev.trans hev1)
            (fun e' he' m' hm' => hhead_ne n hc e' he' m' hm')
        have := hfilters e (List.mem_cons_self e es) n hc
        rwa [show runEntries env (buildIndex rt₀.containers) (e :: es) rt
              = runEntries env (buildIndex rt₀.containers) es
                  (stepEntry env (buildIndex rt₀.containers) rt e).1 from rfl,
            htail_frame] at this
    show runEntries env (buildIndex rt'.containers) es
        (stepEntry env (buildIndex rt'.containers) rt' e).1 = rt'
    rw [hstep2]
    refine ih hwf1 (hev.trans hev1) hnodup_tail ?_ hwf' ?_
    · intro e' he' n' hn'
      have hframe : nameFilter n' (stepEntry env (buildIndex rt₀.containers) rt e).1.containers
          = nameFilter n' rt.containers := by
        refine stepEntry_frame env hwf₀ hev hwf (buildIndex_sound rt₀) e ?_
        intro m hm heq
        exact hhead_ne m hm e' he' n' hn' (heq ▸ rfl)
      rw [hframe]
      exact huntouched e' (List.mem_cons_of_mem e he') n' hn'
    · intro e' he' n' hn'
      exact hfilters e' (List.mem_cons_of_mem e he') n' hn'

section ReconcilerIdempotenceTheorem

/-- Claim C3 (amended) — reconciler idempotence for documents whose
entries resolve to pairwise-distinct container names: starting from a
well-formed runtime, if `RestoreOnStartup` completes with final runtime
`rt₁`, running it again with no intervening changes completes and
leaves `rt₁` exactly as it is.  (The distinct-name hypothesis is
necessary: see the counterexample, where two entries sharing one
container name make the second pass stop a container the first pass
started.) -/
theorem c3_reconcile_idempotent (env : ManagerEnv) (rt rt₁ : Runtime)
    (ds : DesiredState) (tr₁ : List Cmd)
    (hwf : RuntimeWF rt)
    (hdes : env.desired = some ds)
    (hnodup : (ds.containers.filterMap (fun e => env.configName e.1)).Nodup)
    (hrun : restoreOnStartup env rt = .ok (rt₁, tr₁)) :
    ∃ tr₂, restoreOnStartup env rt₁ = .ok (rt₁, tr₂) := by
  have hlist : env.listFails = false := by
    by_contra h
    have h' : env.listFails = true := by revert h; cases env.listFails <;> simp
    simp [restoreOnStartup, hdes, h'] at hrun
  have hro : ∀ rt0, restoreOnStartup env rt0 = .ok (reconcilePass env ds rt0) := by
    intro rt0
    simp [restoreOnStartup, hdes, hlist]
  have hpass : reconcilePass env ds rt = (rt₁, tr₁) := by
    rw [hro rt] at hrun
    exact Except.ok.inj hrun
  have hrt₁ : rt₁ = runEntries env (buildIndex rt.containers) ds.containers rt := by
    rw [← reconcilePass_fst, hpass]
  obtain ⟨hwf₁, _⟩ := runEntries_wf_evolves env (buildIndex rt.containers) ds.containers hwf
  have hfix : runEntries env (buildIndex rt₁.containers) ds.containers rt₁ = rt₁ := by
    rw [hrt₁]
    exact runEntries_idempotent env hwf ds.containers hwf (Evolves.refl rt) hnodup
      (fun _ _ _ _ => rfl) (hrt₁ ▸ hwf₁) (fun _ _ _ _ => rfl)
  refine ⟨(reconcilePass env ds rt₁).2, ?_⟩
  rw [hro rt₁]
  have h1 : (reconcilePass env ds rt₁).1 = rt₁ := by
    rw [reconcilePass_fst]
    exact hfix
  exact congrArg Except.ok (Prod.ext_iff.2 ⟨h1, rfl⟩)

/-- Environment for the C3 witness: the same two entries as the
counterexample, but now resolving to distinct container names. -/
def envC3W : ManagerEnv :=
  { docker := dockerNoFail,
    configName := fun i => if i = "a" then some "na" else if i = "b" then some "nb" else none,
    desired := some ⟨1, [("a", entrySt "running"), ("b", entrySt "stopped")], []⟩,
    listFails := false }

/-- Witness for the amended C3 at a concrete input: with distinct
names, the second pass returns exactly the first pass's runtime. -/
theorem c3_reconcile_idempotent_witness :
    ∃ tr₂, restoreOnStartup envC3W { containers := [⟨0, "na", "running"⟩], nextId := 1 }
      = .ok ({ containers := [⟨0, "na", "running"⟩], nextId := 1 }, tr₂) :=
  c3_reconcile_idempotent envC3W rtEmpty
    { containers := [⟨0, "na", "running"⟩], nextId := 1 }
    ⟨1, [("a", entrySt "running"), ("b", entrySt "stopped")], []⟩
    [Cmd.create "na", Cmd.start 0]
    (by constructor <;> simp [rtEmpty, ridsOf])
    rfl (by decide) (by rfl)

end ReconcilerIdempotenceTheorem

section OrphanTolerance

/-- Claim C5 — orphan tolerance: a desired-state entry whose config
fails to load is skipped (the pass over the document with the orphan
entry equals the pass over the document without it, both in final
runtime and in issued commands), and the pass itself still completes
without error whenever the desired state loaded and the container
listing succeeded. -/
theorem c5_orphan_tolerance (env : ManagerEnv) (rt : Runtime) (v : Int)
    (pre post : List (String × ContainerState)) (cp : List (String × ComposeState))
    (id : String) (st : ContainerState)
    (horphan : env.configName id = none) :
    reconcilePass env ⟨v, pre ++ (id, st) :: post, cp⟩ rt
      = reconcilePass env ⟨v, pre ++ post, cp⟩ rt
    ∧ (∀ ds, env.desired = some ds → env.listFails = false →
        restoreOnStartup env rt = .ok (reconcilePass env ds rt)) := by
  constructor
  · simp [reconcilePass, List.foldl_append, stepEntry, horphan]
  · intro ds hds hlf
    simp [restoreOnStartup, hds, hlf]

/-- Environment for the C5 witness: entity `a` has no loadable config,
entity `b` resolves to container name `nb`. -/
def envC5 : ManagerEnv :=
  { docker := dockerNoFail,
    configName := fun i => if i = "b" then some "nb" else none,
    desired := some ⟨1, [("a", entrySt "running"), ("b", entrySt "running")], []⟩,
    listFails := false }

/-- Witness for C5 at a concrete input: the orphan entry `a` changes
nothing, and the pass returns without error. -/
theorem c5_orphan_tolerance_witness :
    reconcilePass envC5 ⟨1, [("a", entrySt "running"), ("b", entrySt "running")], []⟩ rtEmpty
      = reconcilePass envC5 ⟨1, [("b", entrySt "running")], []⟩ rtEmpty
    ∧ (∀ ds, envC5.desired = some ds → envC5.listFails = false →
        restoreOnStartup envC5 rtEmpty = .ok (reconcilePass envC5 ds rtEmpty)) := by
  have h := c5_orphan_tolerance envC5 rtEmpty 1 []
    [("b", entrySt "running")] [] "a" (entrySt "running") (by decide)
  simpa using h

end OrphanTolerance

section ExistingContainerActions

/-- Claim C6 — convergence actions on an existing container: when the
entry's config name is present in the prebuilt index and the live
status is fetched, the reconciler issues a start call exactly when the
desired state is `running` and the live state is not `running`, a stop
call exactly when the desired state is `stopped` and the live state is
`running`, and otherwise issues no runtime command and leaves the
runtime unchanged. -/
theorem c6_existing_container_actions (env : ManagerEnv) (idx : String → Option Nat)
    (rt : Runtime) (id n : String) (st : ContainerState) (exId : Nat) (c : RtContainer)
    (hcfg : env.configName id = some n)
    (hidx : idx n = some exId)
    (hst : env.docker.statusFails exId = false)
    (hfind : rt.containers.find? (fun c => c.rid = exId) = some c) :
    (st.desiredState = "running" ∧ c.state ≠ "running" →
        stepEntry env idx rt (id, st) = (applyStart env rt exId, [Cmd.start exId])) ∧
    (st.desiredState = "stopped" ∧ c.state = "running" →
        stepEntry env idx rt (id, st) = (applyStop env rt exId, [Cmd.stop exId])) ∧
    (¬(st.desiredState = "running" ∧ c.state ≠ "running") →
     ¬(st.desiredState = "stopped" ∧ c.state = "running") →
        stepEntry env idx rt (id, st) = (rt, [])) := by
  have hstat : getContainerStatus env rt exId = some c.state := by
    simp [getContainerStatus, hst, hfind]
  refine ⟨?_, ?_, ?_⟩
  · intro h
    simp [stepEntry, hcfg, hidx, hstat, h]
  · intro h
    have hdne : ¬(st.desiredState = "running" ∧ c.state ≠ "running") := by
      rintro ⟨h1, _⟩; rw [h.1] at h1; exact absurd h1 (by decide)
    simp [stepEntry, hcfg, hidx, hstat, hdne, h]
  · intro h1 h2
    simp [stepEntry, hcfg, hidx, hstat, h1, h2]

/-- Environment for the C6 witness scenario: document
`{ctrA: stopped}` where `ctrA`'s config names container `containerA`. -/
def envC6 : ManagerEnv :=
  { docker := dockerNoFail,
    configName := fun i => if i = "ctrA" then some "containerA" else none,
    desired := some ⟨1, [("ctrA", entrySt "stopped")], []⟩,
    listFails := false }

/-- Runtime for the C6 witness: `containerA` running (runtime id 7),
plus an unrelated `containerB` running (runtime id 8). -/
def rtC6 : Runtime :=
  { containers := [⟨7, "containerA", "running"⟩, ⟨8, "containerB", "running"⟩], nextId := 9 }

/-- Witness for C6: in the spec scenario the reconciler stops
`containerA` and, over the whole pass, `containerA` ends `exited` while
`containerB` is untouched and the only issued command is the stop. -/
theorem c6_existing_container_actions_witness :
    stepEntry envC6 (buildIndex rtC6.containers) rtC6 ("ctrA", entrySt "stopped")
      = (applyStop envC6 rtC6 7, [Cmd.stop 7])
    ∧ restoreOnStartup envC6 rtC6
      = .ok ({ containers := [⟨7, "containerA", "exited"⟩, ⟨8, "containerB", "running"⟩],
               nextId := 9 }, [Cmd.stop 7]) := by
  constructor
  · exact (c6_existing_container_actions envC6 (buildIndex rtC6.containers) rtC6
      "ctrA" "containerA" (entrySt "stopped") 7 ⟨7, "containerA", "running"⟩
      (by decide) (by decide) (by decide) (by decide)).2.1 (by decide)
  · rfl

end ExistingContainerActions

section SyncErrors

/-- Claim C2 (amended) — error collection in `SyncFromGit`: the sync
never raises; it returns a result with `Success = true` whose error
list is exactly the whole-pass error of `RestoreOnStartup` when that
pass aborts (desired-state load or container-list failure) and is empty
whenever the pass ran its loop, regardless of per-entity failures
inside the loop. -/
theorem c2_sync_errors_collected (env : ManagerEnv) (rt : Runtime) :
    (syncFromGit env rt).1.success = true
    ∧ (∀ e, restoreOnStartup env rt = .error e → (syncFromGit env rt).1.errors = [e])
    ∧ (∀ ds, env.desired = some ds → env.listFails = false →
        (syncFromGit env rt).1.errors = []
        ∧ (syncFromGit env rt).2 = (reconcilePass env ds rt).1) := by
  refine ⟨?_, ?_, ?_⟩
  · unfold syncFromGit
    cases h : restoreOnStartup env rt with
    | error e => simp
    | ok p => simp
  · intro e he
    simp [syncFromGit, he]
  · intro ds hds hlf
    simp [syncFromGit, restoreOnStartup, hds, hlf]

/-- Environment for the C2 counterexample: the pull has succeeded (the
sync coordinator only reconciles), entity `a` wants `running`, its
config loads fine, but the runtime create call for its container `n`
fails. -/
def envC2 : ManagerEnv :=
  { docker := { dockerNoFail with createFails := fun n => n = "n" },
    configName := fun i => if i = "a" then some "n" else none,
    desired := some ⟨1, [("a", entrySt "running")], []⟩,
    listFails := false }

/-- Counterexample to C2 as stated: entity `a` fails to reconcile (its
create call is issued and fails, so no container exists afterwards),
yet the returned `SyncResult` has an empty error list — the per-entity
reconciliation failure is not reported in the result. -/
theorem c2_entity_failure_not_in_errors :
    syncFromGit envC2 rtEmpty
      = ({ success := true, pulledChanges := false, containersAdded := [],
           containersUpdated := [], containersRemoved := [], errors := [] }, rtEmpty)
    ∧ (reconcilePass envC2 ⟨1, [("a", entrySt "running")], []⟩ rtEmpty).2
      = [Cmd.create "n"]
    ∧ (reconcilePass envC2 ⟨1, [("a", entrySt "running")], []⟩ rtEmpty).1.containers
      = [] := by
  decide

/-- Witness for the amended C2 theorem at a concrete input. -/
theorem c2_sync_errors_collected_witness :
    (syncFromGit envC2 rtEmpty).1.success = true
    ∧ (∀ e, restoreOnStartup envC2 rtEmpty = .error e →
        (syncFromGit envC2 rtEmpty).1.errors = [e])
    ∧ (∀ ds, envC2.desired = some ds → envC2.listFails = false →
        (syncFromGit envC2 rtEmpty).1.errors = []
        ∧ (syncFromGit envC2 rtEmpty).2
            = (reconcilePass envC2 ds rtEmpty).1) :=
  c2_sync_errors_collected envC2 rtEmpty

end SyncErrors

section ReconcilerIdempotence

/-- Environment for the C3 counterexample: two desired-state entries
whose configs resolve to the same container name `n` — entity `a` wants
it `running`, entity `b` wants it `stopped`; no runtime call fails. -/
def envC3 : ManagerEnv :=
  { docker := dockerNoFail,
    configName := fun i => if i = "a" ∨ i = "b" then some "n" else none,
    desired := some ⟨1, [("a", entrySt "running"), ("b", entrySt "stopped")], []⟩,
    listFails := false }

/-- Counterexample to C3 as stated: with no intervening changes, the
first pass creates and starts container `n` (entry `b` sees the
pre-pass index, where `n` is absent, and no-ops), while the second pass
stops it — the final runtime after two passes differs from the runtime
after one. -/
theorem c3_reconcile_not_idempotent :
    restoreOnStartup envC3 rtEmpty
      = .ok ({ containers := [⟨0, "n", "running"⟩], nextId := 1 },
             [Cmd.create "n", Cmd.start 0])
    ∧ restoreOnStartup envC3 { containers := [⟨0, "n", "running"⟩], nextId := 1 }
      = .ok ({ containers := [⟨0, "n", "exited"⟩], nextId := 1 }, [Cmd.stop 0])
    ∧ ({ containers := [⟨0, "n", "exited"⟩], nextId := 1 } : Runtime)
      ≠ { containers := [⟨0, "n", "running"⟩], nextId := 1 } := by
  refine ⟨rfl, rfl, by decide⟩

end ReconcilerIdempotence

section PartialFailureTolerance

/-- Convergence of the containers named `n` to desired state `d`:
`running` means some container named `n` is running, `stopped` means no
container named `n` is running. -/
def Converged (d n : String) (cs : List RtContainer) : Prop :=
  (d = "running" → ∃ c ∈ nameFilter n cs, c.state = "running")
  ∧ (d = "stopped" → ∀ c ∈ nameFilter n cs, ¬ c.state = "running")

theorem converged_of_nameFilter_eq {d n : String} {cs cs' : List RtContainer}
    (h : nameFilter n cs' = nameFilter n cs) (hc : Converged d n cs) :
    Converged d n cs' := by
  refine ⟨fun hd => ?_, fun hd => ?_⟩
  · rw [h]; exact hc.1 hd
  · rw [h]; exact hc.2 hd

theorem getLast?_singleton_of_len_le_one {l : List RtContainer} {a : RtContainer}
    (h : l.getLast? = some a) (hlen : l.length ≤ 1) : l = [a] := by
  match l with
  | [] => cases h
  | [x] =>
    have : x = a := by simpa using h
    rw [this]
  | x :: y :: rest => simp at hlen

/-- One-pass convergence for an entry none of whose runtime calls
fails, when the runtime holds at most one container under the entry's
config name: after the entry's iteration the containers named `n` are
converged to its desired state. -/
theorem stepEntry_converges (env : ManagerEnv) {rt₀ rt : Runtime} {n : String}
    (hwf : RuntimeWF rt)
    (e : String × ContainerState)
    (hcfg : env.configName e.1 = some n)
    (hpre : nameFilter n rt.containers = nameFilter n rt₀.containers)
    (hlen : (nameFilter n rt₀.containers).length ≤ 1)
    (hcf : env.docker.createFails n = false)
    (hsf : ∀ i, env.docker.startFails i = false)
    (hpf : ∀ i, env.docker.stopFails i = false)
    (htf : ∀ i, env.docker.statusFails i = false)
    (hd : e.2.desiredState = "running" ∨ e.2.desiredState = "stopped") :
    Converged e.2.desiredState n
      (stepEntry env (buildIndex rt₀.containers) rt e).1.containers := by
  cases hL : (nameFilter n rt₀.containers).getLast? with
  | none =>
    have hFnil : nameFilter n rt₀.containers = [] := List.getLast?_eq_none_iff.1 hL
    have hx₀ : buildIndex rt₀.containers n = none := by
      rw [buildIndex_eq_getLast, hL]; rfl
    rcases hd with hd | hd
    · -- absent and desired running: create then start
      have h1 : (stepEntry env (buildIndex rt₀.containers) rt e).1
          = applyUpd (env.docker.startFails rt.nextId) (applyCreate rt n) rt.nextId
              "running" := by
        simp only [stepEntry, hcfg, hx₀, if_pos hd, hcf, Bool.false_eq_true,
          if_false]; rfl
      have hF : nameFilter n (stepEntry env (buildIndex rt₀.containers) rt e).1.containers
          = [⟨rt.nextId, n, "running"⟩] := by
        rw [h1, applyUpd_of_false (by rw [hsf rt.nextId]; exact Bool.false_ne_true)]
        show nameFilter n ((applyCreate rt n).containers.map (updState rt.nextId "running"))
          = _
        rw [nameFilter_map_upd, applyCreate_nameFilter, hpre, hFnil, List.nil_append]
        simp [updState]
      refine ⟨fun _ => ?_, fun hstop => ?_⟩
      · exact ⟨⟨rt.nextId, n, "running"⟩, by rw [hF]; exact List.mem_singleton_self _, rfl⟩
      · rw [hd] at hstop; exact absurd hstop (by decide)
    · -- absent and desired stopped: nothing to do, trivially converged
      have h1 : (stepEntry env (buildIndex rt₀.containers) rt e).1 = rt := by
        simp only [stepEntry, hcfg, hx₀]
        rw [if_neg (by rw [hd]; decide)]
      refine ⟨fun hrunn => ?_, fun _ => ?_⟩
      · rw [hd] at hrunn; exact absurd hrunn (by decide)
      · intro c hcmem
        rw [h1, hpre, hFnil] at hcmem
        cases hcmem
  | some E =>
    have hsingle : nameFilter n rt₀.containers = [E] :=
      getLast?_singleton_of_len_le_one hL hlen
    have hx₀ : buildIndex rt₀.containers n = some E.rid := by
      rw [buildIndex_eq_getLast, hL]; rfl
    have hEmem_rt : E ∈ rt.containers :=
      (mem_nameFilter.1 (by rw [hpre, hsingle]; exact List.mem_singleton_self _)).1
    have hfind : rt.containers.find? (fun x => x.rid = E.rid) = some E :=
      find?_rid hwf.1 hEmem_rt rfl
    have hstat : getContainerStatus env rt E.rid = some E.state := by
      simp [getContainerStatus, htf E.rid, hfind]
    rcases hd with hd | hd
    · by_cases hrun : E.state = "running"
      · -- already running: no-op, already converged
        have h1 : (stepEntry env (buildIndex rt₀.containers) rt e).1 = rt := by
          simp [stepEntry, hcfg, hx₀, hstat, hd, hrun]
        refine ⟨fun _ => ?_, fun hstop => ?_⟩
        · exact ⟨E, by rw [h1, hpre, hsingle]; exact List.mem_singleton_self _, hrun⟩
        · rw [hd] at hstop; exact absurd hstop (by decide)
      · -- present but not running: start it
        have h1 : (stepEntry env (buildIndex rt₀.containers) rt e).1
            = applyUpd (env.docker.startFails E.rid) rt E.rid "running" := by
          simp only [stepEntry, hcfg, hx₀, hstat, if_pos (And.intro hd hrun)]; rfl
        have hF : nameFilter n (stepEntry env (buildIndex rt₀.containers) rt e).1.containers
            = [updState E.rid "running" E] := by
          rw [h1, applyUpd_of_false (by rw [hsf E.rid]; exact Bool.false_ne_true)]
          show nameFilter n (rt.containers.map (updState E.rid "running")) = _
          rw [nameFilter_map_upd, hpre, hsingle]; rfl
        refine ⟨fun _ => ?_, fun hstop => ?_⟩
        · exact ⟨updState E.rid "running" E,
            by rw [hF]; exact List.mem_singleton_self _, by simp [updState]⟩
        · rw [hd] at hstop; exact absurd hstop (by decide)
    · by_cases hrun : E.state = "running"
      · -- running but desired stopped: stop it
        have h1 : (stepEntry env (buildIndex rt₀.containers) rt e).1
            = applyUpd (env.docker.stopFails E.rid) rt E.rid "exited" := by
          have hnc1 : ¬(e.2.desiredState = "running" ∧ E.state ≠ "running") := by
            rw [hd]; simp
          simp only [stepEntry, hcfg, hx₀, hstat, if_neg hnc1,
            if_pos (And.intro hd hrun)]; rfl
        have hF : nameFilter n (stepEntry env (buildIndex rt₀.containers) rt e).1.containers
            = [updState E.rid "exited" E] := by
          rw [h1, applyUpd_of_false (by rw [hpf E.rid]; exact Bool.false_ne_true)]
          show nameFilter n (rt.containers.map (updState E.rid "exited")) = _
          rw [nameFilter_map_upd, hpre, hsingle]; rfl
        refine ⟨fun hrunn => ?_, fun _ => ?_⟩
        · rw [hd] at hrunn; exact absurd hrunn (by decide)
        · intro c hcmem
          rw [hF] at hcmem
          rcases List.mem_singleton.1 hcmem with rfl
          simp [updState]
      · -- neither running nor asked to run: no-op, already converged
        have h1 : (stepEntry env (buildIndex rt₀.containers) rt e).1 = rt := by
          have hnc1 : ¬(e.2.desiredState = "running" ∧ E.state ≠ "running") := by
            rw [hd]; simp
          have hnc2 : ¬(e.2.desiredState = "stopped" ∧ E.state = "running") := by
            simp [hrun]
          simp only [stepEntry, hcfg, hx₀, hstat, if_neg hnc1, if_neg hnc2]
        refine ⟨fun hrunn => ?_, fun _ => ?_⟩
        · rw [hd] at hrunn; exact absurd hrunn (by decide)
        · intro c hcmem
          rw [h1, hpre, hsingle] at hcmem
          rcases List.mem_singleton.1 hcmem with rfl
          exact hrun

/-- Claim C4 — per-entity failure tolerance: in a document with entries
for entities `a`, `b`, `c` whose configs resolve to distinct container
names, where the runtime create call for `a`'s container fails while
every call for `b` and `c` succeeds, the pass still completes and
converges `b` and `c` to their desired states: a create failure aborts
only that entity's reconciliation, never the whole loop. -/
theorem c4_partial_failure_tolerance (env : ManagerEnv) (rt : Runtime)
    (a b c : String) (sa sb sc : ContainerState) (na nb nc : String)
    (v : Int) (cp : List (String × ComposeState))
    (hdoc : env.desired = some ⟨v, [(a, sa), (b, sb), (c, sc)], cp⟩)
    (hlist : env.listFails = false)
    (hca : env.configName a = some na)
    (hcb : env.configName b = some nb)
    (hcc : env.configName c = some nc)
    (hab : ¬ na = nb) (hac : ¬ na = nc) (hbc : ¬ nb = nc)
    (hfailA : env.docker.createFails na = true)
    (hokB : env.docker.createFails nb = false)
    (hokC : env.docker.createFails nc = false)
    (hsf : ∀ i, env.docker.startFails i = false)
    (hpf : ∀ i, env.docker.stopFails i = false)
    (htf : ∀ i, env.docker.statusFails i = false)
    (hwf : RuntimeWF rt)
    (hlb : (nameFilter nb rt.containers).length ≤ 1)
    (hlc : (nameFilter nc rt.containers).length ≤ 1)
    (hsb : sb.desiredState = "running" ∨ sb.desiredState = "stopped")
    (hsc : sc.desiredState = "running" ∨ sc.desiredState = "stopped") :
    ∃ rt' tr, restoreOnStartup env rt = .ok (rt', tr)
      ∧ Converged sb.desiredState nb rt'.containers
      ∧ Converged sc.desiredState nc rt'.containers := by
  have hsound := buildIndex_sound rt
  have hwfa := (stepEntry_wf_evolves env (buildIndex rt.containers) hwf (a, sa)).1
  have heva := (stepEntry_wf_evolves env (buildIndex rt.containers) hwf (a, sa)).2
  have hwfb := (stepEntry_wf_evolves env (buildIndex rt.containers) hwfa (b, sb)).1
  have hevb := (stepEntry_wf_evolves env (buildIndex rt.containers) hwfa (b, sb)).2
  -- entity a's iteration leaves b's containers untouched
  have hframe_b_a : nameFilter nb
      (stepEntry env (buildIndex rt.containers) rt (a, sa)).1.containers
      = nameFilter nb rt.containers := by
    refine stepEntry_frame env hwf (Evolves.refl rt) hwf hsound (a, sa) ?_
    intro m hm
    rw [hca] at hm
    cases hm
    exact hab
  -- entity b converges at its own iteration
  have hconvb : Converged sb.desiredState nb
      (stepEntry env (buildIndex rt.containers)
        (stepEntry env (buildIndex rt.containers) rt (a, sa)).1 (b, sb)).1.containers :=
    stepEntry_converges env hwfa (b, sb) hcb hframe_b_a hlb hokB hsf hpf htf hsb
  -- entity c's iteration leaves b's containers untouched
  have hframe_b_c : nameFilter nb
      (stepEntry env (buildIndex rt.containers)
        (stepEntry env (buildIndex rt.containers)
          (stepEntry env (buildIndex rt.containers) rt (a, sa)).1 (b, sb)).1
        (c, sc)).1.containers
      = nameFilter nb
          (stepEntry env (buildIndex rt.containers)
            (stepEntry env (buildIndex rt.containers) rt (a, sa)).1 (b, sb)).1.containers := by
    refine stepEntry_frame env hwf (heva.trans hevb) hwfb hsound (c, sc) ?_
    intro m hm
    rw [hcc] at hm
    cases hm
    exact fun h => hbc h.symm
  have hconvb' := converged_of_nameFilter_eq hframe_b_c hconvb
  -- entities a and b leave c's containers untouched
  have hframe_c_a : nameFilter nc
      (stepEntry env (buildIndex rt.containers) rt (a, sa)).1.containers
      = nameFilter nc rt.containers := by
    refine stepEntry_frame env hwf (Evolves.refl rt) hwf hsound (a, sa) ?_
    intro m hm
    rw [hca] at hm
    cases hm
    exact hac
  have hframe_c_b : nameFilter nc
      (stepEntry env (buildIndex rt.containers)
        (stepEntry env (buildIndex rt.containers) rt (a, sa)).1 (b, sb)).1.containers
      = nameFilter nc
          (stepEntry env (buildIndex rt.containers) rt (a, sa)).1.containers := by
    refine stepEntry_frame env hwf heva hwfa hsound (b, sb) ?_
    intro m hm
    rw [hcb] at hm
    cases hm
    exact hbc
  -- entity c converges at its own iteration
  have hconvc : Converged sc.desiredState nc
      (stepEntry env (buildIndex rt.containers)
        (stepEntry env (buildIndex rt.containers)
          (stepEntry env (buildIndex rt.containers) rt (a, sa)).1 (b, sb)).1
        (c, sc)).1.containers :=
    stepEntry_converges env hwfb (c, sc) hcc
      (hframe_c_b.trans hframe_c_a) hlc hokC hsf hpf htf hsc
  -- assemble over the whole pass
  have hro : restoreOnStartup env rt
      = .ok (reconcilePass env ⟨v, [(a, sa), (b, sb), (c, sc)], cp⟩ rt) := by
    simp [restoreOnStartup, hdoc, hlist]
  refine ⟨(reconcilePass env ⟨v, [(a, sa), (b, sb), (c, sc)], cp⟩ rt).1,
    (reconcilePass env ⟨v, [(a, sa), (b, sb), (c, sc)], cp⟩ rt).2, by rw [hro], ?_, ?_⟩
  · rw [reconcilePass_fst]
    exact hconvb'
  · rw [reconcilePass_fst]
    exact hconvc

/-- Environment for the C4 witness: entities `a`, `b`, `c` with
container names `A`, `B`, `C`; creating `A` fails, everything else
succeeds; `a` and `b` want `running`, `c` wants `stopped`. -/
def envC4 : ManagerEnv :=
  { docker := { createFails := fun m => m = "A", startFails := fun _ => false,
                stopFails := fun _ => false, statusFails := fun _ => false },
    configName := fun i =>
      if i = "a" then some "A" else if i = "b" then some "B"
      else if i = "c" then some "C" else none,
    desired := some ⟨1, [("a", entrySt "running"), ("b", entrySt "running"),
                         ("c", entrySt "stopped")], []⟩,
    listFails := false }

/-- Runtime for the C4 witness: only `C` exists and is running. -/
def rtC4 : Runtime := { containers := [⟨0, "C", "running"⟩], nextId := 1 }

/-- Witness for C4 at a concrete input: despite `A`'s create failure,
`B` converges to running and `C` converges to stopped. -/
theorem c4_partial_failure_tolerance_witness :
    ∃ rt' tr, restoreOnStartup envC4 rtC4 = .ok (rt', tr)
      ∧ Converged "running" "B" rt'.containers
      ∧ Converged "stopped" "C" rt'.containers :=
  c4_partial_failure_tolerance envC4 rtC4 "a" "b" "c"
    (entrySt "running") (entrySt "running") (entrySt "stopped") "A" "B" "C" 1 []
    rfl rfl rfl rfl rfl (by decide) (by decide) (by decide)
    (by decide) (by decide) (by decide)
    (fun _ => rfl) (fun _ => rfl) (fun _ => rfl)
    (by constructor <;> decide)
    (by decide) (by decide) (Or.inl rfl) (Or.inr rfl)

end PartialFailureTolerance

/-! ## Backup scheduler (`internal/backup`, `Scheduler`)

`BackupVolume` runs a worker container that archives the volume into
the staging file `backup.tar.gz` inside the volume's backup directory
(a bind mount), waits for it, and only on exit code 0 renames the
staging file to the timestamped `<stamp>.tar.gz`; `cleanupOldBackups`
then enforces retention.  The backup directory is modelled as the list
of its entries (`os.ReadDir` view, metadata inline); the worker, the
Docker calls and the filesystem failures are oracles in `BackupEnv`.
Timestamps are `Int` (in days — the retention cutoff uses
`AddDate(0, 0, -retentionDays)`). -/

/-- `models.BackupConfig`: the backup policy attached to a volume. -/
structure BackupConfig where
  enabled : Bool
  schedule : String
  retentionDays : Int
  lastBackup : String
deriving Repr, DecidableEq

/-- `models.VolumeConfig` restricted to the fields the backup scheduler
reads (name and backup policy). -/
structure VolumeConfig where
  name : String
  backup : BackupConfig
deriving Repr, DecidableEq

/-- `strings.HasSuffix`, decided over the character lists (the
built-in `String.endsWith` does not reduce in the kernel). -/
def hasSuffix (s suffix : String) : Bool := List.isSuffixOf suffix.data s.data

/-- One entry of the backup directory listing (`os.DirEntry` plus the
`FileInfo` the code reads: modification time and size). -/
structure FileEntry where
  name : String
  modTime : Int
  size : Int
  isDir : Bool
deriving Repr, DecidableEq

/-- `models.BackupInfo`: one row of the `ListBackups` result. -/
structure BackupInfo where
  volumeName : String
  timestamp : Int
  filename : String
  sizeBytes : Int
deriving Repr, DecidableEq

/-- Environment of one `Scheduler.BackupVolume` / `ListBackups` /
`cleanupOldBackups` run: the current timestamp and its formatted form,
failure oracles for the Docker and filesystem calls, what the worker
container wrote into the staging file (`none` when it wrote nothing,
otherwise modification time and size — a worker may write a partial
archive and still exit non-zero), the filename-timestamp parser
(`time.Parse` of the `2006-01-02T15-04-05.tar.gz` layout), and the
loaded volume config. -/
structure BackupEnv where
  now : Int
  nowName : String
  mkdirFails : Bool
  createContainerFails : Bool
  startFails : Bool
  waitError : Bool
  exitCode : Int
  workerWrites : Option (Int × Int)
  parseName : String → Option Int
  volumeCfg : Option VolumeConfig
  readDirFails : Bool
  removeFails : String → Bool

/-- Writing a file into the directory: truncate an existing entry of
that name or create a new one. -/
def upsertFile (dir : List FileEntry) (n : String) (t sz : Int) : List FileEntry :=
  if dir.any (fun e => e.name = n) then
    dir.map (fun e => if e.name = n then ⟨n, t, sz, false⟩ else e)
  else dir ++ [⟨n, t, sz, false⟩]

/-- `os.Remove` of the named file. -/
def removeFile (dir : List FileEntry) (n : String) : List FileEntry :=
  dir.filter (fun e => ¬ e.name = n)

/-- `Scheduler.cleanupOldBackups`: load the volume config (absent ⇒
return), list the directory (failure ⇒ return), and for each `.tar.gz`
file older than `now - retention_days` (default 30 when the configured
value is non-positive) attempt `os.Remove`, logging (ignoring) removal
failures. -/
def cleanupOldBackups (env : BackupEnv) (dir : List FileEntry) : List FileEntry :=
  match env.volumeCfg with
  | none => dir
  | some cfg =>
    if env.readDirFails then dir
    else
      let retentionDays :=
        if cfg.backup.retentionDays ≤ 0 then 30 else cfg.backup.retentionDays
      let cutoff := env.now - retentionDays
      dir.foldl (fun d e =>
        if e.isDir ∨ ¬ hasSuffix e.name ".tar.gz" then d
        else if e.modTime < cutoff then
          if env.removeFails e.name then d else removeFile d e.name
        else d) dir

/-- `Scheduler.BackupVolume` acting on the volume's backup directory:
create the directory, create and start the worker container (early
failures leave the directory as it was), let the worker run (its write
to the staging file lands in the bind-mounted directory), await it —
a wait error or non-zero exit removes the worker and fails the
operation — and on success rename `backup.tar.gz` to the timestamped
name, update the volume config's `last_backup`, commit to git (neither
touches this directory) and run retention cleanup. -/
def backupVolume (env : BackupEnv) (dir : List FileEntry) :
    Except String Unit × List FileEntry :=
  if env.mkdirFails then (.error "failed to create backup directory", dir)
  else if env.createContainerFails then (.error "failed to create backup container", dir)
  else if env.startFails then (.error "failed to start backup container", dir)
  else
    let dir1 := match env.workerWrites with
      | some (t, sz) => upsertFile dir "backup.tar.gz" t sz
      | none => dir
    if env.waitError then (.error "failed waiting for backup", dir1)
    else if ¬ env.exitCode = 0 then
      (.error "backup container exited with a non-zero code", dir1)
    else
      match dir1.find? (fun e => e.name = "backup.tar.gz") with
      | none => (.error "failed to rename backup file", dir1)
      | some f =>
        let dir2 := upsertFile (removeFile dir1 "backup.tar.gz")
          (env.nowName ++ ".tar.gz") f.modTime f.size
        (.ok (), cleanupOldBackups env dir2)

/-- Descending-timestamp order on backup rows (`sort.Slice` with
`Timestamp.After` as the less function). -/
def tsGE (x y : BackupInfo) : Prop := y.timestamp ≤ x.timestamp

instance : DecidableRel tsGE := fun x y =>
  inferInstanceAs (Decidable (y.timestamp ≤ x.timestamp))

instance : IsTotal BackupInfo tsGE :=
  ⟨fun x y => le_total y.timestamp x.timestamp⟩

instance : IsTrans BackupInfo tsGE :=
  ⟨fun _ _ _ h1 h2 => le_trans h2 h1⟩

/-- `Scheduler.ListBackups`: an absent directory yields an empty list
(`os.IsNotExist`); otherwise one row per `.tar.gz` file, timestamp
parsed from the filename with the file's modification time as the
fallback, sorted by timestamp descending. -/
def listBackups (env : BackupEnv) (volumeName : String)
    (dir : Option (List FileEntry)) : Except String (List BackupInfo) :=
  match dir with
  | none => .ok []
  | some entries =>
    let backups := (entries.filter
        (fun e => ¬ e.isDir ∧ hasSuffix e.name ".tar.gz")).map
      (fun e => { volumeName := volumeName,
                  timestamp := (env.parseName e.name).getD e.modTime,
                  filename := e.name, sizeBytes := e.size })
    .ok (List.insertionSort tsGE backups)

/-! ### Retention (claim C7) -/

theorem cleanup_foldl_eq (env : BackupEnv) (cutoff : Int) :
    ∀ (L A : List FileEntry),
      L.foldl (fun d e =>
        if e.isDir ∨ ¬ hasSuffix e.name ".tar.gz" then d
        else if e.modTime < cutoff then
          if env.removeFails e.name then d else removeFile d e.name
        else d) A
      = A.filter (fun x => ¬ x.name ∈ (L.filter (fun e =>
          ¬ e.isDir ∧ hasSuffix e.name ".tar.gz" ∧ e.modTime < cutoff
          ∧ ¬ env.removeFails e.name)).map (fun e => e.name)) := by
  intro L
  induction L with
  | nil => intro A; simp
  | cons e L' ih =>
    intro A
    by_cases h1 : e.isDir ∨ ¬ hasSuffix e.name ".tar.gz"
    · have hpred : ¬(¬ e.isDir ∧ hasSuffix e.name ".tar.gz" ∧ e.modTime < cutoff
          ∧ ¬ env.removeFails e.name) := by
        rcases h1 with h | h
        · exact fun hp => hp.1 (by simpa using h)
        · exact fun hp => h hp.2.1
      simp only [List.foldl_cons, if_pos h1, List.filter_cons]
      rw [if_neg (by simpa using hpred)]
      exact ih A
    · have h1' : ¬ e.isDir = true ∧ hasSuffix e.name ".tar.gz" = true := by
        constructor
        · exact fun h => h1 (Or.inl h)
        · by_contra h
          exact h1 (Or.inr (by simpa using h))
      by_cases h2 : e.modTime < cutoff
      · by_cases h3 : env.removeFails e.name = true
        · have hpred : ¬(¬ e.isDir ∧ hasSuffix e.name ".tar.gz" ∧ e.modTime < cutoff
              ∧ ¬ env.removeFails e.name) := fun hp => hp.2.2.2 h3
          simp only [List.foldl_cons, if_neg h1, if_pos h2, if_pos h3, List.filter_cons]
          rw [if_neg (by simpa using hpred)]
          exact ih A
        · have hpred : ¬ e.isDir ∧ hasSuffix e.name ".tar.gz" ∧ e.modTime < cutoff
              ∧ ¬ env.removeFails e.name := ⟨h1'.1, h1'.2, h2, h3⟩
          simp only [List.foldl_cons, if_neg h1, if_pos h2, if_neg h3, List.filter_cons]
          rw [if_pos (by simpa using hpred)]
          rw [ih (removeFile A e.name)]
          unfold removeFile
          rw [List.filter_filter]
          apply List.filter_congr
          intro x _
          by_cases ha : x.name = e.name
          · by_cases hb : x.name ∈ (L'.filter (fun e =>
                ¬ e.isDir ∧ hasSuffix e.name ".tar.gz" ∧ e.modTime < cutoff
                ∧ ¬ env.removeFails e.name)).map (fun e => e.name) <;>
              simp [ha, hb]
          · by_cases hb : x.name ∈ (L'.filter (fun e =>
                ¬ e.isDir ∧ hasSuffix e.name ".tar.gz" ∧ e.modTime < cutoff
                ∧ ¬ env.removeFails e.name)).map (fun e => e.name) <;>
              simp [ha, hb]
      · have hpred : ¬(¬ e.isDir ∧ hasSuffix e.name ".tar.gz" ∧ e.modTime < cutoff
            ∧ ¬ env.removeFails e.name) := fun hp => h2 hp.2.2.1
        simp only [List.foldl_cons, if_neg h1, if_neg h2, List.filter_cons]
        rw [if_neg (by simpa using hpred)]
        exact ih A

/-- Claim C7 — backup retention: with a loadable volume config and a
readable directory of distinct filenames, retention cleanup removes
exactly the `.tar.gz` files strictly older than `now - retention_days`
(defaulting to 30 days when the configured value is non-positive) whose
removal succeeds; and the error status of the whole backup operation
never depends on the removal-failure oracle — deletion failures cannot
fail the backup. -/
theorem c7_retention_cleanup (env : BackupEnv) (dir : List FileEntry) (cfg : VolumeConfig)
    (hcfg : env.volumeCfg = some cfg) (hrd : env.readDirFails = false)
    (hnames : (dir.map (fun e => e.name)).Nodup) :
    cleanupOldBackups env dir = dir.filter (fun e =>
      ¬(¬ e.isDir ∧ hasSuffix e.name ".tar.gz"
        ∧ e.modTime < env.now - (if cfg.backup.retentionDays ≤ 0 then 30
            else cfg.backup.retentionDays)
        ∧ ¬ env.removeFails e.name))
    ∧ ∀ f : String → Bool,
        (backupVolume { env with removeFails := f } dir).1 = (backupVolume env dir).1 := by
  constructor
  · simp only [cleanupOldBackups, hcfg, hrd]
    rw [cleanup_foldl_eq env
      (env.now - (if cfg.backup.retentionDays ≤ 0 then 30 else cfg.backup.retentionDays))
      dir dir]
    apply List.filter_congr
    intro x hx
    apply decide_eq_decide.mpr
    apply not_congr
    constructor
    · intro hmem
      rcases List.mem_map.1 hmem with ⟨y, hy, hyname⟩
      rcases List.mem_filter.1 hy with ⟨hymem, hyrm⟩
      have hyx : y = x :=
        List.inj_on_of_nodup_map (f := fun e => e.name) hnames hymem hx hyname
      rw [hyx] at hyrm
      simpa using hyrm
    · intro hp
      exact List.mem_map.2 ⟨x, List.mem_filter.2 ⟨hx, by simpa using hp⟩, rfl⟩
  · intro f
    by_cases h1 : env.mkdirFails = true
    · simp [backupVolume, h1]
    · by_cases h2 : env.createContainerFails = true
      · simp [backupVolume, h1, h2]
      · by_cases h3 : env.startFails = true
        · simp [backupVolume, h1, h2, h3]
        · by_cases h4 : env.waitError = true
          · cases hw : env.workerWrites <;> simp [backupVolume, h1, h2, h3, h4, hw]
          · by_cases h5 : env.exitCode = 0
            · cases hw : env.workerWrites with
              | none =>
                cases hf : dir.find? (fun e => e.name = "backup.tar.gz") <;>
                  simp [backupVolume, h1, h2, h3, h4, h5, hw, hf]
              | some p =>
                cases hf : (upsertFile dir "backup.tar.gz" p.1 p.2).find?
                    (fun e => e.name = "backup.tar.gz") <;>
                  simp [backupVolume, h1, h2, h3, h4, h5, hw, hf]
            · cases hw : env.workerWrites <;> simp [backupVolume, h1, h2, h3, h4, h5, hw]

/-- Environment for the C7 witness: `now = 0` with backups 45, 20 and
5 days old and a configured retention of 30 days. -/
def envC7 : BackupEnv :=
  { now := 0, nowName := "t", mkdirFails := false, createContainerFails := false,
    startFails := false, waitError := false, exitCode := 0, workerWrites := none,
    parseName := fun _ => none,
    volumeCfg := some { name := "logs-vol",
                        backup := { enabled := true, schedule := "0 2 * * *",
                                    retentionDays := 30, lastBackup := "" } },
    readDirFails := false, removeFails := fun _ => false }

/-- Backup directory for the C7 witness: archives dated -45, -20 and
-5 days. -/
def dirC7 : List FileEntry :=
  [⟨"a.tar.gz", -45, 10, false⟩, ⟨"b.tar.gz", -20, 10, false⟩, ⟨"c.tar.gz", -5, 10, false⟩]

/-- Witness for C7 at the spec's scenario: exactly the 45-day-old file
is removed, and independence of the error status from delete failures
holds at this input. -/
theorem c7_retention_cleanup_witness :
    (cleanupOldBackups envC7 dirC7 = dirC7.filter (fun e =>
      ¬(¬ e.isDir ∧ hasSuffix e.name ".tar.gz"
        ∧ e.modTime < envC7.now - (if (30 : Int) ≤ 0 then 30 else 30)
        ∧ ¬ envC7.removeFails e.name))
    ∧ ∀ f : String → Bool,
        (backupVolume { envC7 with removeFails := f } dirC7).1
          = (backupVolume envC7 dirC7).1)
    ∧ cleanupOldBackups envC7 dirC7
        = [⟨"b.tar.gz", -20, 10, false⟩, ⟨"c.tar.gz", -5, 10, false⟩] := by
  refine ⟨c7_retention_cleanup envC7 dirC7 _ rfl rfl (by decide), by decide⟩

/-! ### Backup failure semantics (claim C1) -/

theorem upsertFile_mem {dir : List FileEntry} {n : String} {t sz : Int}
    {f : FileEntry} (hf : f ∈ upsertFile dir n t sz) : f ∈ dir ∨ f.name = n := by
  unfold upsertFile at hf
  split at hf
  · rcases List.mem_map.1 hf with ⟨e, he, hfe⟩
    by_cases hn : e.name = n
    · right; rw [← hfe, if_pos hn]
    · left; rwa [← hfe, if_neg hn]
  · rcases List.mem_append.1 hf with h | h
    · exact Or.inl h
    · right; rcases List.mem_singleton.1 h with rfl; rfl

/-- Claim C1 (amended) — failed backups rename nothing: when the worker
container was created and started but waiting on it fails or it exits
non-zero, `BackupVolume` returns an error, the backup directory is the
original one except possibly for the staging file `backup.tar.gz` the
worker wrote, and in particular no file is renamed to the timestamped
name.  (As the counterexample shows, the staging file itself bears the
`.tar.gz` suffix, so when the worker wrote one it does appear as a new
`ListBackups` entry — the listing is not unchanged.) -/
theorem c1_backup_failure_no_rename (env : BackupEnv) (dir : List FileEntry)
    (hmk : env.mkdirFails = false) (hcc : env.createContainerFails = false)
    (hst : env.startFails = false)
    (hfail : env.waitError = true ∨ ¬ env.exitCode = 0) :
    (∃ msg, backupVolume env dir
        = (.error msg, match env.workerWrites with
            | some (t, sz) => upsertFile dir "backup.tar.gz" t sz
            | none => dir))
    ∧ ∀ f ∈ (backupVolume env dir).2, f ∈ dir ∨ f.name = "backup.tar.gz" := by
  have hout : backupVolume env dir
      = (.error (if env.waitError then "failed waiting for backup"
          else "backup container exited with a non-zero code"),
         match env.workerWrites with
          | some (t, sz) => upsertFile dir "backup.tar.gz" t sz
          | none => dir) := by
    rcases hfail with hw | he
    · cases hww : env.workerWrites <;>
        simp [backupVolume, hmk, hcc, hst, hw, hww]
    · have hw' : env.waitError = true ∨ env.waitError = false := by
        cases env.waitError <;> simp
      rcases hw' with hw | hw
      · cases hww : env.workerWrites <;>
          simp [backupVolume, hmk, hcc, hst, hw, hww]
      · cases hww : env.workerWrites <;>
          simp [backupVolume, hmk, hcc, hst, hw, he, hww]
  refine ⟨⟨_, hout⟩, ?_⟩
  intro f hf
  rw [hout] at hf
  cases hww : env.workerWrites with
  | none => rw [hww] at hf; exact Or.inl hf
  | some p =>
    rw [hww] at hf
    exact upsertFile_mem hf

/-- Environment for the C1 counterexample: the worker container starts,
writes a (partial) staging archive of 512 bytes, and exits with code 1. -/
def envC1 : BackupEnv :=
  { now := 100, nowName := "2025-01-01T00-00-00", mkdirFails := false,
    createContainerFails := false, startFails := false, waitError := false,
    exitCode := 1, workerWrites := some (99, 512),
    parseName := fun _ => none, volumeCfg := none, readDirFails := false,
    removeFails := fun _ => false }

/-- Counterexample to C1 as stated: before the failed backup the
volume's listing is empty; the worker exits non-zero, `BackupVolume`
returns an error — and `ListBackups` afterwards shows one new entry,
the retained staging file `backup.tar.gz` (its name carries the
`.tar.gz` suffix the listing selects on, its timestamp falls back to
the file's modification time). -/
theorem c1_partial_artifact_listed :
    (backupVolume envC1 []).1 = .error "backup container exited with a non-zero code"
    ∧ listBackups envC1 "data" (some []) = .ok []
    ∧ listBackups envC1 "data" (some (backupVolume envC1 []).2)
        = .ok [{ volumeName := "data", timestamp := 99, filename := "backup.tar.gz",
                 sizeBytes := 512 }] :=
  ⟨rfl, rfl, rfl⟩

/-- Witness for the amended C1 at the counterexample's input. -/
theorem c1_backup_failure_no_rename_witness :
    (∃ msg, backupVolume envC1 []
        = (.error msg, upsertFile [] "backup.tar.gz" 99 512))
    ∧ ∀ f ∈ (backupVolume envC1 []).2, f ∈ ([] : List FileEntry)
        ∨ f.name = "backup.tar.gz" :=
  c1_backup_failure_no_rename envC1 [] rfl rfl rfl (Or.inr (by decide))

/-! ### Listing contract (claim C8) -/

/-- Claim C8 — `ListBackups` contract: an absent backup directory
yields an empty list and no error; a present directory yields one row
per non-directory `.tar.gz` entry, carrying the volume name, the file
name, the size, and the timestamp parsed from the filename with the
modification time as fallback — the rows a permutation of that listing
and sorted by descending timestamp. -/
theorem c8_list_backups_contract (env : BackupEnv) (v : String) :
    listBackups env v none = .ok []
    ∧ ∀ entries : List FileEntry, ∃ l,
        listBackups env v (some entries) = .ok l
        ∧ l.Perm ((entries.filter
            (fun e => ¬ e.isDir ∧ hasSuffix e.name ".tar.gz")).map
              (fun e => { volumeName := v,
                          timestamp := (env.parseName e.name).getD e.modTime,
                          filename := e.name, sizeBytes := e.size }))
        ∧ List.Sorted tsGE l := by
  refine ⟨rfl, fun entries => ⟨_, rfl, ?_, ?_⟩⟩
  · exact List.perm_insertionSort tsGE _
  · exact List.sorted_insertionSort tsGE _

/-! ## Config loader (`internal/config/loader.go`) — claim C9

`SaveContainerConfig` marshals the `models.ContainerConfig` document to
YAML and writes it to `containers/<ID>.yaml`; `LoadContainerConfig`
reads that path and unmarshals.  The YAML text layer is modelled as a
document tree (`Yaml`); `marshal` follows the `yaml.v3` struct tags of
`internal/models/container.go` — fields in declaration order, an
`omitempty` field omitted exactly when its value is the zero value —
and `unmarshal` reads each tagged key, taking the zero value when the
key is missing.  Go maps (`env`, `labels`) are association lists here;
timestamps are `Int` (yaml.v3 round-trips `time.Time` through RFC3339).
The `containers/` directory is an association list from id to file
content; `os.WriteFile` overwrites. -/

/-- `models.PortMapping`. -/
structure PortMapping where
  host : Int
  container : Int
  protocol : String
deriving Repr, DecidableEq

/-- `models.VolumeMount`. -/
structure VolumeMount where
  name : String
  hostPath : String
  containerPath : String
  readOnly : Bool
deriving Repr, DecidableEq

/-- `models.ContainerNetwork`. -/
structure ContainerNetwork where
  name : String
  aliases : List String
deriving Repr, DecidableEq

/-- `models.ResourceLimits`. -/
structure ResourceLimits where
  memory : String
  cpu : String
deriving Repr, DecidableEq

/-- `models.ContainerSettings`. -/
structure ContainerSettings where
  image : String
  command : List String
  entrypoint : List String
  workingDir : String
  env : List (String × String)
  ports : List PortMapping
  volumes : List VolumeMount
  networks : List ContainerNetwork
  resources : ResourceLimits
  restart : String
  labels : List (String × String)
deriving Repr, DecidableEq

/-- `models.ContainerMetadata`. -/
structure ContainerMetadata where
  createdAt : Int
  updatedAt : Int
  createdBy : String
  composeProject : String
deriving Repr, DecidableEq

/-- `models.ContainerConfig`. -/
structure ContainerConfig where
  id : String
  name : String
  config : ContainerSettings
  desiredState : String
  metadata : ContainerMetadata
deriving Repr, DecidableEq

/-- A YAML document tree. -/
inductive Yaml where
  | str (s : String)
  | int (n : Int)
  | bool (b : Bool)
  | seq (items : List Yaml)
  | map (fields : List (String × Yaml))
deriving Repr

/-- Key lookup in a YAML mapping (first match, as yaml.v3 decodes). -/
def Yaml.getField : List (String × Yaml) → String → Option Yaml
  | [], _ => none
  | (k, v) :: rest, key => if k = key then some v else Yaml.getField rest key

/-- One always-emitted field of a mapping. -/
def fieldY (k : String) (v : Yaml) : List (String × Yaml) := [(k, v)]

/-- One `omitempty` field: emitted exactly when `b` (the value is not
the zero value). -/
def fieldIfY (b : Bool) (k : String) (v : Yaml) : List (String × Yaml) :=
  if b then [(k, v)] else []

/-- Decode a string field: missing ⇒ `""`, wrong shape ⇒ error. -/
def strFieldVal : Option Yaml → Option String
  | none => some ""
  | some (.str s) => some s
  | some _ => none

/-- Decode an integer (timestamp) field: missing ⇒ `0`. -/
def intFieldVal : Option Yaml → Option Int
  | none => some 0
  | some (.int n) => some n
  | some _ => none

/-- Decode a boolean field: missing ⇒ `false`. -/
def boolFieldVal : Option Yaml → Option Bool
  | none => some false
  | some (.bool b) => some b
  | some _ => none

/-- Decode every element of a sequence. -/
def decodeList {α : Type} (dec : Yaml → Option α) : List Yaml → Option (List α)
  | [] => some []
  | y :: ys =>
    match dec y, decodeList dec ys with
    | some a, some as => some (a :: as)
    | _, _ => none

/-- Decode a sequence field: missing ⇒ `[]`. -/
def seqFieldVal {α : Type} (dec : Yaml → Option α) : Option Yaml → Option (List α)
  | none => some []
  | some (.seq ys) => decodeList dec ys
  | some _ => none

/-- Decode a string scalar. -/
def decodeStr : Yaml → Option String
  | .str s => some s
  | _ => none

/-- Encode a `map[string]string`. -/
def marshalStrMap (m : List (String × String)) : Yaml :=
  .map (m.map (fun p => (p.1, .str p.2)))

/-- Decode the fields of a `map[string]string`. -/
def decodeStrPairs : List (String × Yaml) → Option (List (String × String))
  | [] => some []
  | (k, v) :: rest =>
    match decodeStr v, decodeStrPairs rest with
    | some s, some ps => some ((k, s) :: ps)
    | _, _ => none

/-- Decode a `map[string]string` field: missing ⇒ empty map. -/
def strMapFieldVal : Option Yaml → Option (List (String × String))
  | none => some []
  | some (.map fields) => decodeStrPairs fields
  | some _ => none

/-- Encode `models.PortMapping` per its yaml tags
(`host`, `container`, `protocol,omitempty`). -/
def marshalPort (p : PortMapping) : Yaml :=
  .map (fieldY "host" (.int p.host) ++ fieldY "container" (.int p.container)
    ++ fieldIfY (¬ p.protocol = "") "protocol" (.str p.protocol) ++ [])

def unmarshalPort : Yaml → Option PortMapping
  | .map l => do
    let host ← intFieldVal (Yaml.getField l "host")
    let container ← intFieldVal (Yaml.getField l "container")
    let protocol ← strFieldVal (Yaml.getField l "protocol")
    some ⟨host, container, protocol⟩
  | _ => none

/-- Encode `models.VolumeMount` (`name,omitempty`,
`host_path,omitempty`, `container_path`, `read_only,omitempty`). -/
def marshalMount (m : VolumeMount) : Yaml :=
  .map (fieldIfY (¬ m.name = "") "name" (.str m.name)
    ++ fieldIfY (¬ m.hostPath = "") "host_path" (.str m.hostPath)
    ++ fieldY "container_path" (.str m.containerPath)
    ++ fieldIfY m.readOnly "read_only" (.bool m.readOnly) ++ [])

def unmarshalMount : Yaml → Option VolumeMount
  | .map l => do
    let name ← strFieldVal (Yaml.getField l "name")
    let hostPath ← strFieldVal (Yaml.getField l "host_path")
    let containerPath ← strFieldVal (Yaml.getField l "container_path")
    let readOnly ← boolFieldVal (Yaml.getField l "read_only")
    some ⟨name, hostPath, containerPath, readOnly⟩
  | _ => none

/-- Encode `models.ContainerNetwork` (`name`, `aliases,omitempty`). -/
def marshalNetwork (n : ContainerNetwork) : Yaml :=
  .map (fieldY "name" (.str n.name)
    ++ fieldIfY (¬ n.aliases = []) "aliases" (.seq (n.aliases.map .str)) ++ [])

def unmarshalNetwork : Yaml → Option ContainerNetwork
  | .map l => do
    let name ← strFieldVal (Yaml.getField l "name")
    let aliases ← seqFieldVal decodeStr (Yaml.getField l "aliases")
    some ⟨name, aliases⟩
  | _ => none

/-- Encode `models.ResourceLimits` (`memory,omitempty`,
`cpu,omitempty`). -/
def marshalResources (r : ResourceLimits) : Yaml :=
  .map (fieldIfY (¬ r.memory = "") "memory" (.str r.memory)
    ++ fieldIfY (¬ r.cpu = "") "cpu" (.str r.cpu) ++ [])

def unmarshalResources : Yaml → Option ResourceLimits
  | .map l => do
    let memory ← strFieldVal (Yaml.getField l "memory")
    let cpu ← strFieldVal (Yaml.getField l "cpu")
    some ⟨memory, cpu⟩
  | _ => none

/-- Decode a nested `resources` struct field: missing ⇒ zero struct. -/
def resourcesFieldVal : Option Yaml → Option ResourceLimits
  | none => some ⟨"", ""⟩
  | some y => unmarshalResources y

/-- Encode `models.ContainerSettings` per its yaml tags, in field
declaration order; a struct field with `omitempty` (here `resources`)
is omitted when every one of its fields is zero (yaml.v3's `isZero`). -/
def marshalSettings (s : ContainerSettings) : Yaml :=
  .map (fieldY "image" (.str s.image)
    ++ fieldIfY (¬ s.command = []) "command" (.seq (s.command.map .str))
    ++ fieldIfY (¬ s.entrypoint = []) "entrypoint" (.seq (s.entrypoint.map .str))
    ++ fieldIfY (¬ s.workingDir = "") "working_dir" (.str s.workingDir)
    ++ fieldIfY (¬ s.env = []) "env" (marshalStrMap s.env)
    ++ fieldIfY (¬ s.ports = []) "ports" (.seq (s.ports.map marshalPort))
    ++ fieldIfY (¬ s.volumes = []) "volumes" (.seq (s.volumes.map marshalMount))
    ++ fieldIfY (¬ s.networks = []) "networks" (.seq (s.networks.map marshalNetwork))
    ++ fieldIfY (¬ (s.resources.memory = "" ∧ s.resources.cpu = "")) "resources"
        (marshalResources s.resources)
    ++ fieldIfY (¬ s.restart = "") "restart" (.str s.restart)
    ++ fieldIfY (¬ s.labels = []) "labels" (marshalStrMap s.labels) ++ [])

def unmarshalSettings : Yaml → Option ContainerSettings
  | .map l => do
    let image ← strFieldVal (Yaml.getField l "image")
    let command ← seqFieldVal decodeStr (Yaml.getField l "command")
    let entrypoint ← seqFieldVal decodeStr (Yaml.getField l "entrypoint")
    let workingDir ← strFieldVal (Yaml.getField l "working_dir")
    let env ← strMapFieldVal (Yaml.getField l "env")
    let ports ← seqFieldVal unmarshalPort (Yaml.getField l "ports")
    let volumes ← seqFieldVal unmarshalMount (Yaml.getField l "volumes")
    let networks ← seqFieldVal unmarshalNetwork (Yaml.getField l "networks")
    let resources ← resourcesFieldVal (Yaml.getField l "resources")
    let restart ← strFieldVal (Yaml.getField l "restart")
    let labels ← strMapFieldVal (Yaml.getField l "labels")
    some ⟨image, command, entrypoint, workingDir, env, ports, volumes, networks,
          resources, restart, labels⟩
  | _ => none

/-- Encode `models.ContainerMetadata` (`created_at`, `updated_at`,
`created_by`, `compose_project,omitempty`). -/
def marshalMetadata (m : ContainerMetadata) : Yaml :=
  .map (fieldY "created_at" (.int m.createdAt)
    ++ fieldY "updated_at" (.int m.updatedAt)
    ++ fieldY "created_by" (.str m.createdBy)
    ++ fieldIfY (¬ m.composeProject = "") "compose_project" (.str m.composeProject) ++ [])

def unmarshalMetadata : Yaml → Option ContainerMetadata
  | .map l => do
    let createdAt ← intFieldVal (Yaml.getField l "created_at")
    let updatedAt ← intFieldVal (Yaml.getField l "updated_at")
    let createdBy ← strFieldVal (Yaml.getField l "created_by")
    let composeProject ← strFieldVal (Yaml.getField l "compose_project")
    some ⟨createdAt, updatedAt, createdBy, composeProject⟩
  | _ => none

/-- Decode a nested `config` struct field: missing ⇒ zero struct. -/
def settingsFieldVal : Option Yaml → Option ContainerSettings
  | none => some ⟨"", [], [], "", [], [], [], [], ⟨"", ""⟩, "", []⟩
  | some y => unmarshalSettings y

/-- Decode a nested `metadata` struct field: missing ⇒ zero struct. -/
def metadataFieldVal : Option Yaml → Option ContainerMetadata
  | none => some ⟨0, 0, "", ""⟩
  | some y => unmarshalMetadata y

/-- Encode `models.ContainerConfig` (`id`, `name`, `config`,
`desired_state`, `metadata` — none with `omitempty`). -/
def marshalContainerConfig (c : ContainerConfig) : Yaml :=
  .map (fieldY "id" (.str c.id)
    ++ fieldY "name" (.str c.name)
    ++ fieldY "config" (marshalSettings c.config)
    ++ fieldY "desired_state" (.str c.desiredState)
    ++ fieldY "metadata" (marshalMetadata c.metadata) ++ [])

def unmarshalContainerConfig : Yaml → Option ContainerConfig
  | .map l => do
    let id ← strFieldVal (Yaml.getField l "id")
    let name ← strFieldVal (Yaml.getField l "name")
    let config ← settingsFieldVal (Yaml.getField l "config")
    let desiredState ← strFieldVal (Yaml.getField l "desired_state")
    let metadata ← metadataFieldVal (Yaml.getField l "metadata")
    some ⟨id, name, config, desiredState, metadata⟩
  | _ => none

/-- The `containers/` directory: file content keyed by entity id
(`filepath.Join(dataDir, "containers", id + ".yaml")` is injective in
the id). -/
def setAssoc : List (String × Yaml) → String → Yaml → List (String × Yaml)
  | [], k, v => [(k, v)]
  | (k', v') :: rest, k, v =>
    if k' = k then (k, v) :: rest else (k', v') :: setAssoc rest k v

def lookupAssoc (m : List (String × Yaml)) (k : String) : Option Yaml :=
  (m.find? (fun p => p.1 = k)).map (fun p => p.2)

/-- `Loader.SaveContainerConfig`: marshal and overwrite the file keyed
by the document's ID. -/
def saveContainerConfig (store : List (String × Yaml)) (cfg : ContainerConfig) :
    List (String × Yaml) :=
  setAssoc store cfg.id (marshalContainerConfig cfg)

/-- `Loader.LoadContainerConfig`: read the file keyed by `id` (absent
⇒ error) and unmarshal it (malformed ⇒ error). -/
def loadContainerConfig (store : List (String × Yaml)) (id : String) :
    Except String ContainerConfig :=
  match lookupAssoc store id with
  | none => .error "no such file"
  | some y =>
    match unmarshalContainerConfig y with
    | none => .error "failed to unmarshal"
    | some cfg => .ok cfg

/-! ### Round-trip lemmas (claim C9) -/

theorem getField_nil (k : String) : Yaml.getField [] k = none := rfl

theorem getField_fieldY_head (k : String) (v : Yaml) (rest : List (String × Yaml)) :
    Yaml.getField (fieldY k v ++ rest) k = some v := by
  simp [fieldY, Yaml.getField]

theorem getField_skip_fieldY (k k' : String) (h : (k = k') = False) (v : Yaml)
    (rest : List (String × Yaml)) :
    Yaml.getField (fieldY k v ++ rest) k' = Yaml.getField rest k' := by
  simp [fieldY, Yaml.getField, h]

theorem getField_fieldIfY_head (b : Bool) (k : String) (v : Yaml)
    (rest : List (String × Yaml)) :
    Yaml.getField (fieldIfY b k v ++ rest) k
      = if b then some v else Yaml.getField rest k := by
  cases b <;> simp [fieldIfY, Yaml.getField]

theorem getField_skip_fieldIfY (k k' : String) (h : (k = k') = False) (b : Bool) (v : Yaml)
    (rest : List (String × Yaml)) :
    Yaml.getField (fieldIfY b k v ++ rest) k' = Yaml.getField rest k' := by
  cases b <;> simp [fieldIfY, Yaml.getField, h]

theorem strFieldVal_emit (v : String) :
    strFieldVal (if decide (¬ v = "") = true then some (Yaml.str v) else none) = some v := by
  by_cases h : v = ""
  · rw [if_neg (by simp [h])]
    rw [h]
    rfl
  · rw [if_pos (by simp [h])]
    rfl

theorem boolFieldVal_emit (c : Bool) :
    boolFieldVal (if c = true then some (Yaml.bool c) else none) = some c := by
  cases c <;> rfl

theorem strFieldVal_some_str (s : String) : strFieldVal (some (Yaml.str s)) = some s := rfl

theorem intFieldVal_some_int (n : Int) : intFieldVal (some (Yaml.int n)) = some n := rfl

theorem decodeList_map {α : Type} (enc : α → Yaml) (dec : Yaml → Option α)
    (l : List α) (h : ∀ x ∈ l, dec (enc x) = some x) :
    decodeList dec (l.map enc) = some l := by
  induction l with
  | nil => rfl
  | cons a t ih =>
    simp only [List.map_cons, decodeList, h a (List.mem_cons_self a t),
      ih (fun x hx => h x (List.mem_cons_of_mem a hx))]

theorem seqFieldVal_emit {α : Type} [DecidableEq α] (enc : α → Yaml) (dec : Yaml → Option α)
    (l : List α) (h : ∀ x ∈ l, dec (enc x) = some x) :
    seqFieldVal dec (if decide (¬ l = []) = true then some (Yaml.seq (l.map enc)) else none)
      = some l := by
  by_cases hl : l = []
  · rw [if_neg (by simp [hl])]
    rw [hl]
    rfl
  · rw [if_pos (by simp [hl])]
    show decodeList dec (l.map enc) = some l
    exact decodeList_map enc dec l h

theorem decodeStrPairs_map (m : List (String × String)) :
    decodeStrPairs (m.map (fun p => (p.1, Yaml.str p.2))) = some m := by
  induction m with
  | nil => rfl
  | cons p t ih => simp only [List.map_cons, decodeStrPairs, decodeStr, ih]

theorem strMapFieldVal_emit (m : List (String × String)) :
    strMapFieldVal (if decide (¬ m = []) = true then some (marshalStrMap m) else none)
      = some m := by
  by_cases hm : m = []
  · rw [if_neg (by simp [hm])]
    rw [hm]
    rfl
  · rw [if_pos (by simp [hm])]
    show decodeStrPairs (m.map (fun p => (p.1, Yaml.str p.2))) = some m
    exact decodeStrPairs_map m

theorem unmarshal_marshalPort (p : PortMapping) :
    unmarshalPort (marshalPort p) = some p := by
  simp only [List.append_assoc, String.reduceEq, marshalPort, unmarshalPort, getField_fieldY_head, getField_skip_fieldY,
    getField_skip_fieldIfY, getField_fieldIfY_head, getField_nil, intFieldVal_some_int,
    strFieldVal_emit, Option.bind_eq_bind, Option.some_bind]

theorem unmarshal_marshalMount (m : VolumeMount) :
    unmarshalMount (marshalMount m) = some m := by
  simp only [List.append_assoc, String.reduceEq, marshalMount, unmarshalMount, getField_fieldY_head, getField_skip_fieldY,
    getField_skip_fieldIfY, getField_fieldIfY_head, getField_nil, strFieldVal_emit,
    boolFieldVal_emit, strFieldVal_some_str, Option.bind_eq_bind, Option.some_bind]

theorem unmarshal_marshalNetwork (n : ContainerNetwork) :
    unmarshalNetwork (marshalNetwork n) = some n := by
  simp only [List.append_assoc, String.reduceEq, marshalNetwork, unmarshalNetwork, getField_fieldY_head, getField_skip_fieldY,
    getField_skip_fieldIfY, getField_fieldIfY_head, getField_nil, strFieldVal_some_str,
    seqFieldVal_emit Yaml.str decodeStr n.aliases (fun x _ => rfl),
    Option.bind_eq_bind, Option.some_bind]

theorem unmarshal_marshalResources (r : ResourceLimits) :
    unmarshalResources (marshalResources r) = some r := by
  simp only [List.append_assoc, String.reduceEq, marshalResources, unmarshalResources, getField_fieldY_head,
    getField_skip_fieldY, getField_skip_fieldIfY, getField_fieldIfY_head, getField_nil,
    strFieldVal_emit, Option.bind_eq_bind, Option.some_bind]

theorem resourcesFieldVal_emit (r : ResourceLimits) :
    resourcesFieldVal
      (if decide (¬ (r.memory = "" ∧ r.cpu = "")) = true
        then some (marshalResources r) else none) = some r := by
  by_cases h : r.memory = "" ∧ r.cpu = ""
  · rw [if_neg (by simp only [decide_eq_true_eq]; exact not_not_intro h)]
    show some ⟨"", ""⟩ = some r
    rw [show r = ⟨r.memory, r.cpu⟩ from rfl, h.1, h.2]
  · rw [if_pos (by simp only [decide_eq_true_eq]; exact h)]
    exact unmarshal_marshalResources r

theorem unmarshal_marshalSettings (s : ContainerSettings) :
    unmarshalSettings (marshalSettings s) = some s := by
  simp only [List.append_assoc, String.reduceEq, marshalSettings, unmarshalSettings, getField_fieldY_head,
    getField_skip_fieldY, getField_skip_fieldIfY, getField_fieldIfY_head, getField_nil,
    strFieldVal_emit, strFieldVal_some_str, strMapFieldVal_emit, resourcesFieldVal_emit,
    seqFieldVal_emit Yaml.str decodeStr s.command (fun x _ => rfl),
    seqFieldVal_emit Yaml.str decodeStr s.entrypoint (fun x _ => rfl),
    seqFieldVal_emit marshalPort unmarshalPort s.ports
      (fun x _ => unmarshal_marshalPort x),
    seqFieldVal_emit marshalMount unmarshalMount s.volumes
      (fun x _ => unmarshal_marshalMount x),
    seqFieldVal_emit marshalNetwork unmarshalNetwork s.networks
      (fun x _ => unmarshal_marshalNetwork x),
    Option.bind_eq_bind, Option.some_bind]

theorem unmarshal_marshalMetadata (m : ContainerMetadata) :
    unmarshalMetadata (marshalMetadata m) = some m := by
  simp only [List.append_assoc, String.reduceEq, marshalMetadata, unmarshalMetadata, getField_fieldY_head,
    getField_skip_fieldY, getField_skip_fieldIfY, getField_fieldIfY_head, getField_nil,
    intFieldVal_some_int, strFieldVal_some_str, strFieldVal_emit,
    Option.bind_eq_bind, Option.some_bind]

theorem unmarshal_marshalContainerConfig (c : ContainerConfig) :
    unmarshalContainerConfig (marshalContainerConfig c) = some c := by
  simp only [List.append_assoc, String.reduceEq, marshalContainerConfig, unmarshalContainerConfig, getField_fieldY_head,
    getField_skip_fieldY, getField_skip_fieldIfY, getField_nil, strFieldVal_some_str,
    settingsFieldVal, metadataFieldVal, unmarshal_marshalSettings,
    unmarshal_marshalMetadata, Option.bind_eq_bind, Option.some_bind]

theorem lookupAssoc_set_self (m : List (String × Yaml)) (k : String) (v : Yaml) :
    lookupAssoc (setAssoc m k v) k = some v := by
  induction m with
  | nil => simp [setAssoc, lookupAssoc, List.find?]
  | cons p rest ih =>
    by_cases h : p.1 = k
    · simp [setAssoc, h, lookupAssoc, List.find?]
    · simp only [setAssoc]
      rw [show (p.1, p.2) = p from rfl, if_neg h]
      simpa [lookupAssoc, List.find?, h] using ih

/-- Claim C9 — config round-trip: saving a container Entity Config and
immediately loading it by the same ID, with no intervening writes,
succeeds and returns the document unchanged, field for field. -/
theorem c9_config_round_trip (store : List (String × Yaml)) (cfg : ContainerConfig) :
    loadContainerConfig (saveContainerConfig store cfg) cfg.id = .ok cfg := by
  simp only [loadContainerConfig, saveContainerConfig, lookupAssoc_set_self,
    unmarshal_marshalContainerConfig]

/-! ## Desired-State Tracker (`Manager.UpdateContainerState`,
`Manager.RemoveContainerState`) — claim C10

Both operations are a read-modify-write over the one desired-state
document: `LoadDesiredState` (an absent file yields the default empty
version-1 document), one Go map assignment or `delete`, then
`SaveDesiredState` of the whole document.  The document's container map
is the association list of `DesiredState`; the functions below return
the document handed to `SaveDesiredState`. -/

/-- `Loader.LoadDesiredState`: absent file ⇒ fresh empty document
(version 1); the nil-map repair is a no-op in the list model. -/
def loadDesiredState (file : Option DesiredState) : DesiredState :=
  match file with
  | none => { version := 1, containers := [], composeProjects := [] }
  | some d => d

/-- Go map assignment `m[k] = v`: replace the binding or add one. -/
def setContainerAssoc :
    List (String × ContainerState) → String → ContainerState →
      List (String × ContainerState)
  | [], k, v => [(k, v)]
  | (k', v') :: rest, k, v =>
    if k' = k then (k, v) :: rest else (k', v') :: setContainerAssoc rest k v

/-- Go `delete(m, k)`. -/
def delContainerAssoc (m : List (String × ContainerState)) (k : String) :
    List (String × ContainerState) :=
  m.filter (fun p => ¬ p.1 = k)

/-- Go map read `m[k]`. -/
def lookupContainerState (m : List (String × ContainerState)) (k : String) :
    Option ContainerState :=
  (m.find? (fun p => p.1 = k)).map (fun p => p.2)

/-- `Manager.UpdateContainerState`: load, set
`containers[id] = {state, state, now}`, save. -/
def updateContainerState (file : Option DesiredState) (now : Int) (id s : String) :
    DesiredState :=
  let d := loadDesiredState file
  { d with containers := setContainerAssoc d.containers id ⟨s, s, now⟩ }

/-- `Manager.RemoveContainerState`: load, `delete(containers, id)`,
save. -/
def removeContainerState (file : Option DesiredState) (id : String) : DesiredState :=
  let d := loadDesiredState file
  { d with containers := delContainerAssoc d.containers id }

theorem lookup_setContainer_self (m : List (String × ContainerState)) (k : String)
    (v : ContainerState) :
    lookupContainerState (setContainerAssoc m k v) k = some v := by
  induction m with
  | nil => simp [setContainerAssoc, lookupContainerState, List.find?]
  | cons p rest ih =>
    by_cases h : p.1 = k
    · simp [setContainerAssoc, h, lookupContainerState, List.find?]
    · simp only [setContainerAssoc]
      rw [show (p.1, p.2) = p from rfl, if_neg h]
      simpa [lookupContainerState, List.find?, h] using ih

theorem lookup_setContainer_other (m : List (String × ContainerState)) (k k' : String)
    (v : ContainerState) (h : ¬ k' = k) :
    lookupContainerState (setContainerAssoc m k v) k'
      = lookupContainerState m k' := by
  have h' : ¬ k = k' := fun he => h he.symm
  induction m with
  | nil => simp [setContainerAssoc, lookupContainerState, List.find?, h']
  | cons p rest ih =>
    by_cases hp : p.1 = k
    · simp only [setContainerAssoc]
      rw [show (p.1, p.2) = p from rfl, if_pos hp]
      have hp' : ¬ p.1 = k' := by rw [hp]; exact h'
      simp [lookupContainerState, List.find?, h', hp']
    · simp only [setContainerAssoc]
      rw [show (p.1, p.2) = p from rfl, if_neg hp]
      by_cases hp' : p.1 = k'
      · simp [lookupContainerState, List.find?, hp']
      · simpa [lookupContainerState, List.find?, hp'] using ih

theorem lookup_delContainer_self (m : List (String × ContainerState)) (k : String) :
    lookupContainerState (delContainerAssoc m k) k = none := by
  induction m with
  | nil => rfl
  | cons p rest ih =>
    by_cases hp : p.1 = k
    · simpa [delContainerAssoc, List.filter_cons, hp] using ih
    · simpa [delContainerAssoc, lookupContainerState, List.filter_cons, List.find?, hp]
        using ih

theorem lookup_delContainer_other (m : List (String × ContainerState)) (k k' : String)
    (h : ¬ k' = k) :
    lookupContainerState (delContainerAssoc m k) k'
      = lookupContainerState m k' := by
  have hk : ¬ k = k' := fun he => h he.symm
  induction m with
  | nil => rfl
  | cons p rest ih =>
    by_cases hp : p.1 = k
    · have hp' : ¬ p.1 = k' := by rw [hp]; exact hk
      simpa [delContainerAssoc, lookupContainerState, List.filter_cons, List.find?,
        hp, hp', hk, h] using ih
    · by_cases hp' : p.1 = k'
      · simp [delContainerAssoc, lookupContainerState, List.filter_cons, List.find?,
          hp, hp', hk, h]
      · simpa [delContainerAssoc, lookupContainerState, List.filter_cons, List.find?,
          hp, hp', hk, h] using ih

/-- Claim C10 — frame property of the Desired-State Tracker (single
writer): `UpdateContainerState id s` saves a document in which only the
container entry for `id` changed — set to the
`(desired_state, last_known_state, last_transition_time)` triple
`(s, s, now)` — and `RemoveContainerState id` one in which only the
entry for `id` was removed; every other container entry, every
compose-project entry and the `Version` field are unchanged. -/
theorem c10_state_update_frame (d : DesiredState) (now : Int) (id s : String) :
    (updateContainerState (some d) now id s).version = d.version
    ∧ (updateContainerState (some d) now id s).composeProjects = d.composeProjects
    ∧ lookupContainerState (updateContainerState (some d) now id s).containers id
        = some { desiredState := s, lastKnownState := s, lastStateChange := now }
    ∧ (∀ k, ¬ k = id →
        lookupContainerState (updateContainerState (some d) now id s).containers k
          = lookupContainerState d.containers k)
    ∧ (removeContainerState (some d) id).version = d.version
    ∧ (removeContainerState (some d) id).composeProjects = d.composeProjects
    ∧ lookupContainerState (removeContainerState (some d) id).containers id = none
    ∧ (∀ k, ¬ k = id →
        lookupContainerState (removeContainerState (some d) id).containers k
          = lookupContainerState d.containers k) := by
  refine ⟨rfl, rfl, ?_, ?_, rfl, rfl, ?_, ?_⟩
  · exact lookup_setContainer_self d.containers id _
  · intro k hk
    exact lookup_setContainer_other d.containers id k _ hk
  · exact lookup_delContainer_self d.containers id
  · intro k hk
    exact lookup_delContainer_other d.containers id k hk

end EnvManager
